import Mathlib

/-!
Verification of the path codec and the tree-over-KV storage engine.

Strings are modelled as lists of UTF-16 code units (`List Nat`, each
element below 2^16), matching the JavaScript string model that the source
operates on: `charCodeAt` reads one code unit, `String.fromCharCode` writes
one, and `String.fromCodePoint` writes one or two (a surrogate pair).
-/

namespace PathCodec

/-- Which escape schemes are enabled, mirroring the `enabledMethods` set of
the `PathParser` constructor. -/
structure Methods where
  backslashEscapes : Bool
  htmlNamedEntities : Bool
  htmlNumericEntities : Bool
  customUnicodeEntities : Bool
  urlEncoding : Bool
deriving DecidableEq

/-- The default configuration: all five escape schemes enabled. -/
def allMethods : Methods := ⟨true, true, true, true, true⟩

/-- ASCII uppercase or lowercase letter, as in the regex class `[a-zA-Z]`. -/
def isAlpha (c : Nat) : Bool := decide ((65 ≤ c ∧ c ≤ 90) ∨ (97 ≤ c ∧ c ≤ 122))

/-- ASCII decimal digit, as in the regex class `[0-9]`. -/
def isDigitCh (c : Nat) : Bool := 48 ≤ c && c ≤ 57

/-- The regex class `[a-zA-Z0-9]`. -/
def isAlnum (c : Nat) : Bool := isAlpha c || isDigitCh c

/-- The regex class `[0-9a-fA-F]`. -/
def isHexCh (c : Nat) : Bool :=
  isDigitCh c || (97 ≤ c && c ≤ 102) || (65 ≤ c && c ≤ 70)

/-- Numeric value of one hexadecimal digit character. -/
def hexChVal (c : Nat) : Nat :=
  if isDigitCh c then c - 48 else if 97 ≤ c then c - 87 else c - 55

/-- Numeric value of one decimal digit character. -/
def decChVal (c : Nat) : Nat := c - 48

/-- Value of a hex digit string, most significant digit first, as computed
by `parseInt(str, 16)`. -/
def hexListVal (l : List Nat) : Nat :=
  l.foldl (fun acc d => 16 * acc + hexChVal d) 0

/-- Value of a decimal digit string, as computed by `parseInt(str, 10)`. -/
def decListVal (l : List Nat) : Nat :=
  l.foldl (fun acc d => 10 * acc + decChVal d) 0

/-- Greedy split: the longest strictly leading run satisfying `p`, and the
remainder.  This is how the regex engine consumes a character-class run. -/
def splitWhile (p : Nat → Bool) : List Nat → List Nat × List Nat
  | [] => ([], [])
  | a :: l =>
    if p a then
      let r := splitWhile p l
      (a :: r.1, r.2)
    else ([], a :: l)

/-- UTF-16 encoding of a code point, as produced by `String.fromCodePoint`
for an argument that does not exceed 0x10FFFF. -/
def utf16 (cp : Nat) : List Nat :=
  if cp < 65536 then [cp]
  else [55296 + (cp - 65536) / 1024, 56320 + (cp - 65536) % 1024]

/-- The fixed named-entity table (`this.htmlEntities` in the source),
keyed by the entity name's code units. -/
def htmlEntities (name : List Nat) : Option (List Nat) :=
  if name = [97, 109, 112] then some [38]            -- amp  → &
  else if name = [108, 116] then some [60]           -- lt   → <
  else if name = [103, 116] then some [62]           -- gt   → >
  else if name = [113, 117, 111, 116] then some [34] -- quot → double quote
  else if name = [97, 112, 111, 115] then some [39]  -- apos → apostrophe
  else if name = [110, 98, 115, 112] then some [160]
  else if name = [99, 111, 112, 121] then some [169]
  else if name = [114, 101, 103] then some [174]
  else if name = [116, 114, 97, 100, 101] then some [8482]
  else if name = [104, 101, 108, 108, 105, 112] then some [8230]
  else if name = [109, 100, 97, 115, 104] then some [8212]
  else if name = [110, 100, 97, 115, 104] then some [8211]
  else if name = [108, 115, 113, 117, 111] then some [8216]
  else if name = [114, 115, 113, 117, 111] then some [8217]
  else if name = [108, 100, 113, 117, 111] then some [8220]
  else if name = [114, 100, 113, 117, 111] then some [8221]
  else if name = [98, 117, 108, 108] then some [8226]
  else if name = [100, 101, 103] then some [176]
  else if name = [112, 108, 117, 115, 109, 110] then some [177]
  else if name = [116, 105, 109, 101, 115] then some [215]
  else if name = [100, 105, 118, 105, 100, 101] then some [247]
  else none

/-- Recognition of `&name;` against the entity table: the regex
`^&([a-zA-Z][a-zA-Z0-9]*);` followed by the table lookup.  `rest` is the
input after the `&`; the result is the replacement text and the number of
characters consumed after the `&`. -/
def namedEntityStep (rest : List Nat) : Option (List Nat × Nat) :=
  match rest with
  | [] => none
  | c :: cs =>
    if isAlpha c then
      let r := splitWhile isAlnum cs
      match r.2 with
      | 59 :: _ =>
        match htmlEntities (c :: r.1) with
        | some units => some (units, r.1.length + 2)
        | none => none
      | _ => none
    else none

/-- Recognition of `&#xH+;` (the regex `^&#x([0-9a-fA-F]+);`), with the
`String.fromCodePoint` range check: a code point above 0x10FFFF throws and
the match is abandoned. -/
def numericHexStep (rest : List Nat) : Option (List Nat × Nat) :=
  match rest with
  | 35 :: 120 :: cs =>
    let r := splitWhile isHexCh cs
    match r.2 with
    | 59 :: _ =>
      if r.1 ≠ [] ∧ hexListVal r.1 ≤ 1114111 then
        some (utf16 (hexListVal r.1), r.1.length + 3)
      else none
    | _ => none
  | _ => none

/-- Recognition of `&#D+;` (the regex `^&#([0-9]+);`), with the same code
point range check. -/
def numericDecStep (rest : List Nat) : Option (List Nat × Nat) :=
  match rest with
  | 35 :: cs =>
    let r := splitWhile isDigitCh cs
    match r.2 with
    | 59 :: _ =>
      if r.1 ≠ [] ∧ decListVal r.1 ≤ 1114111 then
        some (utf16 (decListVal r.1), r.1.length + 2)
      else none
    | _ => none
  | _ => none

/-- Recognition of `&uHH..;` (the regex `^&u([0-9a-fA-F]{2,8});`).  The
bounded repetition matches exactly when the maximal hex-digit run after the
`u` has length between 2 and 8 and is followed by `;`. -/
def customUnicodeStep (rest : List Nat) : Option (List Nat × Nat) :=
  match rest with
  | 117 :: cs =>
    let r := splitWhile isHexCh cs
    match r.2 with
    | 59 :: _ =>
      if 2 ≤ r.1.length ∧ r.1.length ≤ 8 ∧ hexListVal r.1 ≤ 1114111 then
        some (utf16 (hexListVal r.1), r.1.length + 2)
      else none
    | _ => none
  | _ => none

/-- The entity-recognition cascade run at an `&`: named first, then numeric
(hex before decimal), then the custom unicode form, exactly in the order the
source tries them. -/
def entityStep (m : Methods) (rest : List Nat) : Option (List Nat × Nat) :=
  match (if m.htmlNamedEntities then namedEntityStep rest else none) with
  | some r => some r
  | none =>
    match (if m.htmlNumericEntities then
             match numericHexStep rest with
             | some r => some r
             | none => numericDecStep rest
           else none) with
    | some r => some r
    | none => if m.customUnicodeEntities then customUnicodeStep rest else none

/-- One decision of `parsePath`'s scan loop at the character `c`, with
`rest` the input that follows.  `emit units skip` appends `units` to the
current component and additionally consumes `skip` characters of `rest`;
`sep` is an unescaped `/`, terminating the current component. -/
inductive StepResult where
  | emit (units : List Nat) (skip : Nat)
  | sep
deriving DecidableEq

/-- The body of `parsePath`'s scan loop: choose what the character `c`
contributes, following the branch order of the source. -/
def parseStep (m : Methods) (c : Nat) (rest : List Nat) : StepResult :=
  if c = 92 ∧ m.backslashEscapes then
    match rest with
    | [] => .emit [92] 0                 -- trailing lone backslash kept literal
    | n :: rs =>
      if n = 110 then .emit [10] 1
      else if n = 116 then .emit [9] 1
      else if n = 114 then .emit [13] 1
      else if n = 92 then .emit [92] 1
      else if n = 47 then .emit [47] 1
      else if n = 120 then
        match rs with
        | h1 :: h2 :: _ =>
          if isHexCh h1 ∧ isHexCh h2 then
            .emit [16 * hexChVal h1 + hexChVal h2] 3
          else .emit [120] 1
        | _ => .emit [120] 1
      else .emit [n] 1
  else if c = 38 ∧ (m.htmlNamedEntities ∨ m.htmlNumericEntities ∨ m.customUnicodeEntities) then
    match entityStep m rest with
    | some (units, skip) => .emit units skip
    | none => .emit [38] 0
  else if c = 37 ∧ m.urlEncoding then
    match rest with
    | h1 :: h2 :: _ =>
      if isHexCh h1 ∧ isHexCh h2 then
        .emit [16 * hexChVal h1 + hexChVal h2] 2
      else .emit [37] 0
    | _ => .emit [37] 0
  else if c = 47 then .sep
  else .emit [c] 0

/-- The scan loop of `parsePath`: `comp` is `currentComponent`, `comps` is
`components`; when the input is exhausted the final component is pushed. -/
def parsePathAux (m : Methods) : List Nat → List Nat → List (List Nat) → List (List Nat)
  | [], comp, comps => comps ++ [comp]
  | c :: rest, comp, comps =>
    match parseStep m c rest with
    | .sep => parsePathAux m rest [] (comps ++ [comp])
    | .emit units skip => parsePathAux m (rest.drop skip) (comp ++ units) comps
termination_by input => input.length
decreasing_by
  all_goals simp only [List.length_drop, List.length_cons]
  all_goals omega

/-- `parsePath`: scan, then remove empty components unless the scan produced
exactly one component (the filter predicate consults the length of the
unfiltered list). -/
def parsePath (m : Methods) (s : List Nat) : List (List Nat) :=
  let comps := parsePathAux m s [] []
  comps.filter (fun comp => comp ≠ [] ∨ comps.length = 1)

/-- One uppercase hexadecimal digit character. -/
def hexDigitUpper (d : Nat) : Nat := if d < 10 then 48 + d else 55 + d

/-- Uppercase hexadecimal digits of `c`, most significant first:
`c.toString(16).toUpperCase()`. -/
def natToHexUpper (c : Nat) : List Nat :=
  if c < 16 then [hexDigitUpper c]
  else natToHexUpper (c / 16) ++ [hexDigitUpper (c % 16)]
decreasing_by exact Nat.div_lt_self (by omega) (by omega)

/-- Decimal digit characters of `c`, most significant first: `String(c)`. -/
def natToDecDigits (c : Nat) : List Nat :=
  if c < 10 then [48 + c]
  else natToDecDigits (c / 10) ++ [48 + c % 10]
decreasing_by exact Nat.div_lt_self (by omega) (by omega)

/-- `padStart(n, '0')` on a digit string. -/
def padZero (n : Nat) (l : List Nat) : List Nat :=
  List.replicate (n - l.length) 48 ++ l

/-- Exactly two uppercase hex digits for a value below 256:
`c.toString(16).toUpperCase().padStart(2, '0')`. -/
def hexUpper2 (c : Nat) : List Nat := [hexDigitUpper (c / 16), hexDigitUpper (c % 16)]

/-- The UTF-8 bytes `TextEncoder` produces for one UTF-16 code unit; a lone
surrogate becomes the replacement character U+FFFD. -/
def utf8Bytes (c : Nat) : List Nat :=
  if c < 128 then [c]
  else if c < 2048 then [192 + c / 64, 128 + c % 64]
  else if 55296 ≤ c ∧ c ≤ 57343 then [239, 191, 189]
  else [224 + c / 4096, 128 + c / 64 % 64, 128 + c % 64]

/-- `encodePathComponent`'s per-character choice: for each hazardous
character class, the first enabled scheme in that class's fixed priority
list; printable ASCII other than the hazardous characters passes through. -/
def encodeChar (m : Methods) (c : Nat) : List Nat :=
  if c = 47 then
    if m.backslashEscapes then [92, 47]
    else if m.urlEncoding then [37, 50, 70]
    else if m.htmlNumericEntities then [38, 35, 52, 55, 59]
    else [c]
  else if c = 92 then
    if m.backslashEscapes then [92, 92]
    else if m.urlEncoding then [37, 53, 67]
    else if m.htmlNumericEntities then [38, 35, 57, 50, 59]
    else [c]
  else if c = 10 then
    if m.backslashEscapes then [92, 110]
    else if m.urlEncoding then [37, 48, 65]
    else if m.htmlNumericEntities then [38, 35, 49, 48, 59]
    else [c]
  else if c = 9 then
    if m.backslashEscapes then [92, 116]
    else if m.urlEncoding then [37, 48, 57]
    else if m.htmlNumericEntities then [38, 35, 57, 59]
    else [c]
  else if c = 13 then
    if m.backslashEscapes then [92, 114]
    else if m.urlEncoding then [37, 48, 68]
    else if m.htmlNumericEntities then [38, 35, 49, 51, 59]
    else [c]
  else if c = 37 then
    if m.urlEncoding then [37, 50, 53]
    else if m.htmlNumericEntities then [38, 35, 51, 55, 59]
    else if m.backslashEscapes then [92, 37]
    else [c]
  else if c = 38 then
    if m.htmlNamedEntities then [38, 97, 109, 112, 59]
    else if m.urlEncoding then [37, 50, 54]
    else if m.htmlNumericEntities then [38, 35, 51, 56, 59]
    else if m.backslashEscapes then [92, 38]
    else [c]
  else if c < 32 ∨ c > 126 then
    if c ≤ 255 then
      if m.urlEncoding then 37 :: hexUpper2 c
      else if m.backslashEscapes then 92 :: 120 :: hexUpper2 c
      else if m.htmlNumericEntities then 38 :: 35 :: (natToDecDigits c ++ [59])
      else if m.customUnicodeEntities then 38 :: 117 :: (padZero 2 (natToHexUpper c) ++ [59])
      else [c]
    else
      if m.htmlNumericEntities then 38 :: 35 :: 120 :: (natToHexUpper c ++ [59])
      else if m.customUnicodeEntities then 38 :: 117 :: (padZero 4 (natToHexUpper c) ++ [59])
      else if m.urlEncoding then (utf8Bytes c).foldr (fun b acc => 37 :: hexUpper2 b ++ acc) []
      else [c]
  else [c]

/-- One path component, encoded character by character. -/
def encodePathComponent (m : Methods) (s : List Nat) : List Nat :=
  (s.map (encodeChar m)).flatten

/-- `Array.prototype.join('/')`. -/
def joinSlash : List (List Nat) → List Nat
  | [] => []
  | [s] => s
  | s :: rest => s ++ 47 :: joinSlash rest

/-- `createPath`: drop empty components, encode each, join with `/`;
an empty component list yields the empty string. -/
def createPath (m : Methods) (components : List (List Nat)) : List Nat :=
  joinSlash ((components.filter (fun comp => comp ≠ [])).map (encodePathComponent m))

theorem parsePathAux_nil (m : Methods) (comp : List Nat) (comps : List (List Nat)) :
    parsePathAux m [] comp comps = comps ++ [comp] := by
  rw [parsePathAux]

theorem parsePathAux_cons (m : Methods) (c : Nat) (rest comp : List Nat)
    (comps : List (List Nat)) :
    parsePathAux m (c :: rest) comp comps =
      match parseStep m c rest with
      | .sep => parsePathAux m rest [] (comps ++ [comp])
      | .emit units skip => parsePathAux m (rest.drop skip) (comp ++ units) comps := by
  rw [parsePathAux]

theorem hexDigit_val : ∀ d < 16,
    isHexCh (hexDigitUpper d) = true ∧ hexChVal (hexDigitUpper d) = d := by decide

theorem hexListVal_append_digit (l : List Nat) (d : Nat) :
    hexListVal (l ++ [d]) = 16 * hexListVal l + hexChVal d := by
  simp [hexListVal, List.foldl_append]

theorem natToHexUpper_spec (c : Nat) :
    (∀ d ∈ natToHexUpper c, isHexCh d = true) ∧
      hexListVal (natToHexUpper c) = c ∧ natToHexUpper c ≠ [] := by
  induction c using Nat.strong_induction_on with
  | _ c ih =>
    rw [natToHexUpper]
    by_cases h : c < 16
    · simp only [h, if_true]
      refine ⟨?_, ?_, by simp⟩
      · intro d hd
        simp only [List.mem_singleton] at hd
        subst hd
        exact (hexDigit_val c h).1
      · simp [hexListVal, (hexDigit_val c h).2]
    · simp only [h, if_false]
      have hdiv : c / 16 < c := Nat.div_lt_self (by omega) (by omega)
      obtain ⟨ih1, ih2, _⟩ := ih (c / 16) hdiv
      have hm : c % 16 < 16 := Nat.mod_lt _ (by omega)
      refine ⟨?_, ?_, by simp⟩
      · intro d hd
        rcases List.mem_append.mp hd with h1 | h2
        · exact ih1 d h1
        · simp only [List.mem_singleton] at h2
          subst h2
          exact (hexDigit_val _ hm).1
      · rw [hexListVal_append_digit, ih2, (hexDigit_val _ hm).2]
        omega

theorem utf16_small (c : Nat) (h : c < 65536) : utf16 c = [c] := by
  simp [utf16, h]

theorem splitWhile_append (p : Nat → Bool) (l : List Nat) (x : Nat) (r : List Nat)
    (hl : ∀ d ∈ l, p d = true) (hx : p x = false) :
    splitWhile p (l ++ x :: r) = (l, x :: r) := by
  induction l with
  | nil => simp [splitWhile, hx]
  | cons a t ih =>
    have ha : p a = true := hl a (by simp)
    simp [splitWhile, ha, ih (fun d hd => hl d (by simp [hd]))]

theorem drop_len_succ (l rest : List Nat) (x : Nat) :
    (l ++ x :: rest).drop (l.length + 1) = rest := by
  induction l with
  | nil => rfl
  | cons y ys ih =>
    simp only [List.cons_append, List.length_cons, List.drop_succ_cons]
    exact ih

theorem parseStep_sep (rest : List Nat) : parseStep allMethods 47 rest = .sep := rfl

theorem parseStep_literal (c : Nat) (rest : List Nat)
    (h92 : c ≠ 92) (h38 : c ≠ 38) (h37 : c ≠ 37) (h47 : c ≠ 47) :
    parseStep allMethods c rest = .emit [c] 0 := by
  simp [parseStep, h92, h38, h37, h47]

theorem parseStep_percentHH (c : Nat) (hc : c < 256) (rest : List Nat) :
    parseStep allMethods 37 (hexDigitUpper (c / 16) :: hexDigitUpper (c % 16) :: rest) =
      .emit [c] 2 := by
  have h1 := hexDigit_val (c / 16) (by omega)
  have h2 := hexDigit_val (c % 16) (Nat.mod_lt _ (by omega))
  simp [parseStep, allMethods, h1.1, h2.1, h1.2, h2.2, Nat.div_add_mod]

theorem parseStep_numericHex (c : Nat) (h255 : 255 < c) (hc : c < 65536) (rest : List Nat) :
    parseStep allMethods 38 (35 :: 120 :: (natToHexUpper c ++ 59 :: rest)) =
      .emit [c] ((natToHexUpper c).length + 3) := by
  obtain ⟨hdig, hval, hne⟩ := natToHexUpper_spec c
  have hsplit := splitWhile_append isHexCh (natToHexUpper c) 59 rest hdig (by decide)
  have hle : c ≤ 1114111 := by omega
  simp [parseStep, allMethods, entityStep, namedEntityStep, isAlpha,
    numericHexStep, hsplit, hne, hval, utf16_small c hc, hle]

/-- Decoding one encoded character: with all schemes enabled, the scan
consumes exactly the escape `encodeChar` produced and recovers the original
code unit, whatever input follows. -/
theorem parsePathAux_encodeChar (c : Nat) (hc : c < 65536) (rest comp : List Nat)
    (comps : List (List Nat)) :
    parsePathAux allMethods (encodeChar allMethods c ++ rest) comp comps =
      parsePathAux allMethods rest (comp ++ [c]) comps := by
  by_cases h47 : c = 47
  · subst h47
    show parsePathAux allMethods (92 :: 47 :: rest) comp comps = _
    rw [parsePathAux_cons]
    rfl
  by_cases h92 : c = 92
  · subst h92
    show parsePathAux allMethods (92 :: 92 :: rest) comp comps = _
    rw [parsePathAux_cons]
    rfl
  by_cases h10 : c = 10
  · subst h10
    show parsePathAux allMethods (92 :: 110 :: rest) comp comps = _
    rw [parsePathAux_cons]
    rfl
  by_cases h9 : c = 9
  · subst h9
    show parsePathAux allMethods (92 :: 116 :: rest) comp comps = _
    rw [parsePathAux_cons]
    rfl
  by_cases h13 : c = 13
  · subst h13
    show parsePathAux allMethods (92 :: 114 :: rest) comp comps = _
    rw [parsePathAux_cons]
    rfl
  by_cases h37 : c = 37
  · subst h37
    show parsePathAux allMethods (37 :: 50 :: 53 :: rest) comp comps = _
    rw [parsePathAux_cons]
    rfl
  by_cases h38 : c = 38
  · subst h38
    show parsePathAux allMethods (38 :: 97 :: 109 :: 112 :: 59 :: rest) comp comps = _
    rw [parsePathAux_cons]
    rfl
  by_cases hlow : c < 32 ∨ 126 < c
  · by_cases hb : c ≤ 255
    · have he : encodeChar allMethods c =
          37 :: hexDigitUpper (c / 16) :: hexDigitUpper (c % 16) :: [] := by
        simp [encodeChar, h47, h92, h10, h9, h13, h37, h38, hlow, hb, allMethods, hexUpper2]
      rw [he]
      show parsePathAux allMethods
        (37 :: hexDigitUpper (c / 16) :: hexDigitUpper (c % 16) :: rest) comp comps = _
      rw [parsePathAux_cons, parseStep_percentHH c (by omega) rest]
      rfl
    · have he : encodeChar allMethods c = 38 :: 35 :: 120 :: (natToHexUpper c ++ [59]) := by
        simp [encodeChar, h47, h92, h10, h9, h13, h37, h38, hlow, hb, allMethods]
      rw [he]
      show parsePathAux allMethods
        (38 :: 35 :: 120 :: ((natToHexUpper c ++ [59]) ++ rest)) comp comps = _
      rw [List.append_assoc, List.singleton_append,
        parsePathAux_cons, parseStep_numericHex c (by omega) hc rest]
      show parsePathAux allMethods
        ((natToHexUpper c ++ 59 :: rest).drop ((natToHexUpper c).length + 1))
        (comp ++ [c]) comps = _
      rw [drop_len_succ]
  · have he : encodeChar allMethods c = [c] := by
      simp [encodeChar, h47, h92, h10, h9, h13, h37, h38, hlow]
    rw [he, List.singleton_append, parsePathAux_cons,
      parseStep_literal c rest h92 h38 h37 h47]
    rfl

/-- Decoding one encoded component: the scan consumes the whole encoding and
recovers the component, whatever input follows. -/
theorem parsePathAux_encodeComponent (s : List Nat) (hs : ∀ u ∈ s, u < 65536)
    (rest comp : List Nat) (comps : List (List Nat)) :
    parsePathAux allMethods (encodePathComponent allMethods s ++ rest) comp comps =
      parsePathAux allMethods rest (comp ++ s) comps := by
  induction s generalizing comp with
  | nil => simp [encodePathComponent]
  | cons u t ih =>
    have hu : u < 65536 := hs u (by simp)
    have ht : ∀ v ∈ t, v < 65536 := fun v hv => hs v (by simp [hv])
    have he : encodePathComponent allMethods (u :: t) =
        encodeChar allMethods u ++ encodePathComponent allMethods t := by
      simp [encodePathComponent]
    rw [he, List.append_assoc, parsePathAux_encodeChar u hu _ comp comps, ih ht (comp ++ [u])]
    simp

/-- Decoding a `/`-joined list of encoded components yields the components,
appended to whatever was already pushed. -/
theorem parsePathAux_segments (T : List (List Nat)) :
    ∀ (s : List Nat) (comps : List (List Nat)),
      (∀ x ∈ s :: T, ∀ u ∈ x, u < 65536) →
      parsePathAux allMethods (joinSlash ((s :: T).map (encodePathComponent allMethods)))
        [] comps = comps ++ s :: T := by
  induction T with
  | nil =>
    intro s comps hS
    have h1 : joinSlash [encodePathComponent allMethods s] =
        encodePathComponent allMethods s ++ [] := by simp [joinSlash]
    show parsePathAux allMethods (joinSlash [encodePathComponent allMethods s]) [] comps = _
    rw [h1, parsePathAux_encodeComponent s (hS s (by simp)) [] [] comps, parsePathAux_nil]
    simp
  | cons s2 T2 ih =>
    intro s comps hS
    have hj : joinSlash ((s :: s2 :: T2).map (encodePathComponent allMethods)) =
        encodePathComponent allMethods s ++
          47 :: joinSlash ((s2 :: T2).map (encodePathComponent allMethods)) := rfl
    rw [hj, parsePathAux_encodeComponent s (hS s (by simp)) _ [] comps, parsePathAux_cons]
    show parsePathAux allMethods (joinSlash ((s2 :: T2).map (encodePathComponent allMethods)))
      [] (comps ++ [[] ++ s]) = _
    rw [ih s2 (comps ++ [[] ++ s]) (fun x hx => hS x (by simp at hx ⊢; tauto))]
    simp

/-- Zeta-free restatement of `parsePath`. -/
theorem parsePath_def (m : Methods) (s : List Nat) :
    parsePath m s = (parsePathAux m s [] []).filter
      (fun comp => comp ≠ [] ∨ (parsePathAux m s [] []).length = 1) := rfl

/-- C1 (amended): with all five escape schemes enabled, `parsePath` inverts
`createPath` on every non-empty sequence of non-empty segments (segments
being arbitrary lists of UTF-16 code units).  The original claim fails for
sequences with empty segments, which `createPath` drops. -/
theorem parsePath_createPath_roundtrip (S : List (List Nat)) (hne : S ≠ [])
    (hseg : ∀ s ∈ S, s ≠ []) (hu : ∀ s ∈ S, ∀ u ∈ s, u < 65536) :
    parsePath allMethods (createPath allMethods S) = S := by
  have hfilter : S.filter (fun comp => comp ≠ []) = S := by
    rw [List.filter_eq_self]
    intro a ha
    simpa using hseg a ha
  obtain ⟨s, T, rfl⟩ : ∃ s T, S = s :: T := by
    cases S with
    | nil => exact absurd rfl hne
    | cons s T => exact ⟨s, T, rfl⟩
  have hc : createPath allMethods (s :: T) =
      joinSlash (((s :: T)).map (encodePathComponent allMethods)) := by
    simp only [createPath]
    rw [hfilter]
  rw [parsePath_def, hc, parsePathAux_segments T s [] hu]
  rw [List.nil_append, List.filter_eq_self]
  intro a ha
  have hne2 : a ≠ [] := hseg a ha
  simp [hne2]

/-- C1 counterexample: with every scheme enabled (so no character can
require an unavailable escape), the sequence `["a", ""]` does not round-trip:
`createPath` drops the empty segment and parsing returns `["a"]`. -/
theorem c1_counterexample :
    parsePath allMethods (createPath allMethods [[97], []]) ≠ [[97], []] := by
  have h : parsePath allMethods (createPath allMethods [[97], []]) = [[97]] := by
    simp [parsePath_def, createPath, encodePathComponent, encodeChar, joinSlash,
      parsePathAux, parseStep, allMethods]
  simp [h]

/-- C1 witness: the round-trip theorem applied to the one-segment sequence
`["a"]`. -/
theorem c1_witness : parsePath allMethods (createPath allMethods [[97]]) = [[97]] :=
  parsePath_createPath_roundtrip [[97]] (by simp) (by simp) (by simp)

end PathCodec

namespace RetryExec

/-- The shape of a JavaScript error as `isRetryableError` inspects it:
`status` is `none` when the property is absent (`undefined`). -/
structure JsError where
  status : Option Nat
  name : String
  message : String
deriving DecidableEq

/-- `String.prototype.includes`: does `needle` occur contiguously in the
second argument? -/
def hasSubstring (needle : List Char) : List Char → Bool
  | [] => needle.isEmpty
  | c :: rest => needle.isPrefixOf (c :: rest) || hasSubstring needle rest

/-- `isRetryableError`: HTTP 429, a 5xx status, a network error, or a
message mentioning a timeout.  An absent `status` fails both numeric tests,
as `undefined` comparisons do in JavaScript. -/
def isRetryableError (e : JsError) : Bool :=
  e.status == some 429 ||
  (match e.status with
   | some s => decide (500 ≤ s)
   | none => false) ||
  e.name == "NetworkError" ||
  hasSubstring "timeout".toList e.message.toList

/-- The error built by the line after the retry loop:
`new Error(context + " failed after " + maxRetries + " attempts: " + msg)`. -/
def wrapExhausted (ctx : String) (n : Nat) (lastMsg : String) : JsError :=
  ⟨none, "Error", ctx ++ " failed after " ++ toString n ++ " attempts: " ++ lastMsg⟩

/-- The retry loop of `withRetry`.  `op i` is the outcome of invocation
number `i`; the second component of the result counts invocations performed.
`lastMsg` carries `lastError.message` for the post-loop wrapped throw (that
line is reachable only when `maxRetries = 0`, in which case `lastError` is
still `undefined`; the initial `""` stands for that). -/
def withRetryGo {α : Type} (op : Nat → Except JsError α) (maxRetries : Nat) (ctx : String)
    (attempt : Nat) (lastMsg : String) : Except JsError α × Nat :=
  if _h : attempt < maxRetries then
    match op attempt with
    | .ok v => (.ok v, attempt + 1)
    | .error e =>
      if h2 : isRetryableError e = true ∧ attempt < maxRetries - 1 then
        withRetryGo op maxRetries ctx (attempt + 1) e.message
      else (.error e, attempt + 1)
  else
    (.error (wrapExhausted ctx maxRetries lastMsg), attempt)
termination_by maxRetries - attempt
decreasing_by omega

/-- `withRetry`, returning the outcome together with the number of attempts
performed. -/
def withRetry {α : Type} (op : Nat → Except JsError α) (maxRetries : Nat) (ctx : String) :
    Except JsError α × Nat :=
  withRetryGo op maxRetries ctx 0 ""

/-- When every remaining attempt fails with a retryable error, the loop runs
to the last attempt and re-raises that attempt's raw error. -/
theorem withRetryGo_allFail {α : Type} (op : Nat → Except JsError α) (maxRetries : Nat)
    (ctx : String) (elast : JsError) :
    ∀ k attempt lastMsg, maxRetries - attempt = k → attempt < maxRetries →
      (∀ i, attempt ≤ i → i < maxRetries → ∃ e, op i = .error e ∧ isRetryableError e = true) →
      op (maxRetries - 1) = .error elast →
      withRetryGo op maxRetries ctx attempt lastMsg = (.error elast, maxRetries) := by
  intro k
  induction k with
  | zero => omega
  | succ k ih =>
    intro attempt lastMsg hk hlt hall hlast
    obtain ⟨e, hop, hretry⟩ := hall attempt (by omega) hlt
    rw [withRetryGo, dif_pos hlt, hop]
    dsimp only
    by_cases hl : attempt < maxRetries - 1
    · rw [dif_pos ⟨hretry, hl⟩]
      exact ih (attempt + 1) e.message (by omega) (by omega) (fun i h1 h2 => hall i (by omega) h2) hlast
    · have : attempt = maxRetries - 1 := by omega
      subst this
      rw [hlast] at hop
      rw [dif_neg (by tauto)]
      have : elast = e := by injection hop
      subst this
      refine congrArg _ ?_
      omega

/-- C2 (amended): an operation failing twice with a retryable error and then
succeeding returns the success after exactly 3 attempts; an operation whose
every attempt fails with a retryable error performs exactly `maxRetries`
attempts and then re-raises the last underlying error itself — the wrapped
error naming the context is never constructed on this path. -/
theorem withRetry_retry_behavior :
    (∀ (α : Type) (op : Nat → Except JsError α) (maxRetries : Nat) (ctx : String)
       (v : α) (e0 e1 : JsError),
       3 ≤ maxRetries →
       op 0 = .error e0 → isRetryableError e0 = true →
       op 1 = .error e1 → isRetryableError e1 = true →
       op 2 = .ok v →
       withRetry op maxRetries ctx = (.ok v, 3)) ∧
    (∀ (α : Type) (op : Nat → Except JsError α) (maxRetries : Nat) (ctx : String)
       (elast : JsError),
       1 ≤ maxRetries →
       (∀ i, i < maxRetries → ∃ e, op i = .error e ∧ isRetryableError e = true) →
       op (maxRetries - 1) = .error elast →
       withRetry op maxRetries ctx = (.error elast, maxRetries)) := by
  constructor
  · intro α op maxRetries ctx v e0 e1 h3 h0 hr0 h1 hr1 h2
    rw [withRetry, withRetryGo, dif_pos (show 0 < maxRetries by omega), h0]
    dsimp only
    rw [dif_pos ⟨hr0, by omega⟩, withRetryGo, dif_pos (show 1 < maxRetries by omega), h1]
    dsimp only
    rw [dif_pos ⟨hr1, by omega⟩, withRetryGo, dif_pos (show 2 < maxRetries by omega), h2]
  · intro α op maxRetries ctx elast h1 hall hlast
    exact withRetryGo_allFail op maxRetries ctx elast maxRetries 0 "" (by omega) (by omega)
      (fun i _ h => hall i h) hlast

/-- A permanently failing operation raising a network error. -/
def netErr : JsError := ⟨none, "NetworkError", "connection reset"⟩

/-- An operation that always fails with `netErr`. -/
def alwaysFail : Nat → Except JsError Unit := fun _ => .error netErr

/-- An operation that fails with `netErr` on the first two attempts and then
succeeds. -/
def failTwice : Nat → Except JsError Nat := fun n => if n < 2 then .error netErr else .ok 7

/-- C2 counterexample: with the default `maxRetries = 5` and an operation
that always fails with a retryable error, the wrapper performs 5 attempts
but raises the raw underlying error, not the wrapped error naming the
operation context that the claim (and the dead line after the loop)
describe. -/
theorem c2_counterexample :
    withRetry alwaysFail 5 "kv put" = (.error netErr, 5) ∧
      netErr ≠ wrapExhausted "kv put" 5 netErr.message := by
  constructor
  · have hr : isRetryableError netErr = true := rfl
    simp [withRetry, withRetryGo, alwaysFail, hr]
  · decide

/-- C2 witness: both halves of the retry theorem applied to concrete
operations. -/
theorem c2_witness :
    withRetry failTwice 5 "op" = (.ok 7, 3) ∧
      withRetry alwaysFail 4 "op" = (.error netErr, 4) := by
  constructor
  · exact withRetry_retry_behavior.1 Nat failTwice 5 "op" 7 netErr netErr (by omega)
      rfl rfl rfl rfl rfl
  · exact withRetry_retry_behavior.2 Unit alwaysFail 4 "op" netErr (by omega)
      (fun i _ => ⟨netErr, rfl, rfl⟩) rfl

end RetryExec

namespace KeyDeriver

/-- `pathArray.map(String).join('::')`, the string `hashPath` digests.  The
segments are already strings, so the `String(...)` conversion is the
identity. -/
def joinColons : List (List Char) → List Char
  | [] => []
  | [s] => s
  | s :: rest => s ++ ':' :: ':' :: joinColons rest

/-- The storage key `globalPrefix + "-" + hash + "-" + suffix` built by
`createStorageKey`.  The SHA-256 digest is kept abstract as `hash`; the
claim directs that it be modelled as injective. -/
def createStorageKey (hash : List Char → List Char) (tag : List Char)
    (p : List (List Char)) (suffix : List Char) : List Char :=
  tag ++ '-' :: (hash (joinColons p) ++ '-' :: suffix)

theorem append_colons_inj (x : List Char) :
    ∀ (y u v : List Char), (':' : Char) ∉ x → (':' : Char) ∉ y →
      x ++ ':' :: ':' :: u = y ++ ':' :: ':' :: v → x = y ∧ u = v := by
  induction x with
  | nil =>
    intro y u v _ hy h
    cases y with
    | nil =>
      simp only [List.nil_append] at h
      exact ⟨rfl, by injection h with _ h2; injection h2⟩
    | cons b ys =>
      simp only [List.nil_append, List.cons_append] at h
      injection h with h1 _
      exact absurd h1.symm (by simp at hy; tauto)
  | cons a xs ih =>
    intro y u v hx hy h
    cases y with
    | nil =>
      simp only [List.nil_append, List.cons_append] at h
      injection h with h1 _
      exact absurd h1 (by simp at hx; tauto)
    | cons b ys =>
      simp only [List.cons_append] at h
      injection h with h1 h2
      have hx2 : (':' : Char) ∉ xs := by simp at hx; tauto
      have hy2 : (':' : Char) ∉ ys := by simp at hy; tauto
      obtain ⟨hxy, huv⟩ := ih ys u v hx2 hy2 h2
      exact ⟨by rw [h1, hxy], huv⟩

/-- `join('::')` is injective on sequences of non-empty, colon-free
segments. -/
theorem joinColons_inj (p : List (List Char)) :
    ∀ q, (∀ s ∈ p, (':' : Char) ∉ s ∧ s ≠ []) → (∀ s ∈ q, (':' : Char) ∉ s ∧ s ≠ []) →
      joinColons p = joinColons q → p = q := by
  induction p with
  | nil =>
    intro q _ hq h
    cases q with
    | nil => rfl
    | cons t qs =>
      cases qs with
      | nil => exact absurd h.symm (hq t (by simp)).2
      | cons t2 qs2 =>
        exfalso
        have h2 : joinColons ([] : List (List Char)) =
            t ++ ':' :: ':' :: joinColons (t2 :: qs2) := h
        simp [joinColons] at h2
  | cons s ps ih =>
    intro q hp hq h
    cases q with
    | nil =>
      cases ps with
      | nil => exact absurd h (hp s (by simp)).2
      | cons s2 ps2 =>
        exfalso
        have h2 : s ++ ':' :: ':' :: joinColons (s2 :: ps2) =
            joinColons ([] : List (List Char)) := h
        simp [joinColons] at h2
    | cons t qs =>
      cases ps with
      | nil =>
        cases qs with
        | nil => exact congrArg (· :: []) h
        | cons t2 qs2 =>
          exfalso
          have h2 : s = t ++ ':' :: ':' :: joinColons (t2 :: qs2) := h
          exact (hp s (by simp)).1 (by rw [h2]; simp)
      | cons s2 ps2 =>
        cases qs with
        | nil =>
          exfalso
          have h2 : s ++ ':' :: ':' :: joinColons (s2 :: ps2) = t := h
          exact (hq t (by simp)).1 (by rw [← h2]; simp)
        | cons t2 qs2 =>
          have h2 : s ++ ':' :: ':' :: joinColons (s2 :: ps2) =
              t ++ ':' :: ':' :: joinColons (t2 :: qs2) := h
          obtain ⟨hst, hjj⟩ := append_colons_inj s t _ _
            (hp s (by simp)).1 (hq t (by simp)).1 h2
          have := ih (t2 :: qs2) (fun x hx => hp x (by simp [hx]))
            (fun x hx => hq x (by simp [hx])) hjj
          rw [hst, this]

/-- C4 (amended): key derivation is a function of the segment sequence
(identical sequences give identical keys), and — modelling the SHA-256
digest as injective — two distinct sequences of non-empty, colon-free
segments never produce the same storage key.  The original claim fails for
segments containing the `::` separator: `["a::b"]` and `["a","b"]` digest
the same string. -/
theorem createStorageKey_deterministic_injective :
    (∀ (hash : List Char → List Char) (tag : List Char) (p q : List (List Char))
       (suffix : List Char), p = q →
       createStorageKey hash tag p suffix = createStorageKey hash tag q suffix) ∧
    (∀ (hash : List Char → List Char) (tag suffix : List Char),
       Function.Injective hash →
       ∀ p q, (∀ s ∈ p, (':' : Char) ∉ s ∧ s ≠ []) → (∀ s ∈ q, (':' : Char) ∉ s ∧ s ≠ []) →
         createStorageKey hash tag p suffix = createStorageKey hash tag q suffix →
         p = q) := by
  constructor
  · intro hash tag p q suffix h
    rw [h]
  · intro hash tag suffix hinj p q hp hq h
    unfold createStorageKey at h
    have h2 := List.append_cancel_left h
    injection h2 with _ h3
    have h4 := List.append_cancel_right h3
    exact joinColons_inj p q hp hq (hinj h4)

/-- C4 counterexample: under an injective digest model (here the identity
function), the sequences `["a::b"]` and `["a","b"]` are distinct yet receive
the same storage key, because `join('::')` conflates them. -/
theorem c4_counterexample :
    createStorageKey id ['t'] [['a', ':', ':', 'b']] ['v'] =
        createStorageKey id ['t'] [['a'], ['b']] ['v'] ∧
      [['a', ':', ':', 'b']] ≠ [['a'], ['b']] := by
  exact ⟨rfl, by decide⟩

/-- C4 witness: the amended theorem applied with the identity digest to the
concrete colon-free sequence `["a","b"]`. -/
theorem c4_witness : ([['a'], ['b']] : List (List Char)) = [['a'], ['b']] :=
  createStorageKey_deterministic_injective.2 id ['t'] ['v'] (fun _ _ h => h)
    [['a'], ['b']] [['a'], ['b']] (by decide) (by decide) rfl

end KeyDeriver

namespace TreeKV

/-- JSON-serializable values.  Numbers are modelled as integers (the values
the engine itself writes are strings, arrays of strings and `null`; integer
literals cover the JSON number uses the claims exercise). -/
inductive Json where
  | null
  | bool (b : Bool)
  | num (n : Int)
  | str (s : String)
  | arr (elems : List Json)
  | obj (fields : List (String × Json))

/-- One lowercase hexadecimal digit character. -/
def hexCharLower (d : Nat) : Char := Char.ofNat (if d < 10 then 48 + d else 87 + d)

/-- The escaping `JSON.stringify` applies inside string literals. -/
def escapeChar (c : Char) : List Char :=
  if c = '"' then ['\\', '"']
  else if c = '\\' then ['\\', '\\']
  else if c = '\n' then ['\\', 'n']
  else if c = '\r' then ['\\', 'r']
  else if c = '\t' then ['\\', 't']
  else if c.toNat = 8 then ['\\', 'b']
  else if c.toNat = 12 then ['\\', 'f']
  else if c.toNat < 32 then
    ['\\', 'u', '0', '0', hexCharLower (c.toNat / 16), hexCharLower (c.toNat % 16)]
  else [c]

/-- A JSON string literal: quoted and escaped. -/
def quoteString (s : String) : List Char :=
  '"' :: ((s.toList.map escapeChar).flatten ++ ['"'])

mutual

/-- `JSON.stringify` (no spacing), over the `Json` model. -/
def stringify : Json → List Char
  | .null => "null".toList
  | .bool b => (cond b "true" "false").toList
  | .num n => (toString n).toList
  | .str s => quoteString s
  | .arr xs => '[' :: (stringifyElems xs ++ [']'])
  | .obj fs => Char.ofNat 123 :: (stringifyFields fs ++ [Char.ofNat 125])

/-- Array elements, comma-separated. -/
def stringifyElems : List Json → List Char
  | [] => []
  | [x] => stringify x
  | x :: y :: xs => stringify x ++ ',' :: stringifyElems (y :: xs)

/-- Object fields, comma-separated, in list (insertion) order. -/
def stringifyFields : List (String × Json) → List Char
  | [] => []
  | [(k, v)] => quoteString k ++ ':' :: stringify v
  | (k, v) :: f :: fs =>
    (quoteString k ++ ':' :: stringify v) ++ ',' :: stringifyFields (f :: fs)

end

/-- `Object.keys(value).sort()`: the key list in ascending order.  JS sorts
by UTF-16 code units; the string order here agrees with it on the values the
engine stores. -/
def sortedKeys (fs : List (String × Json)) : List String :=
  List.insertionSort (· ≤ ·) (fs.map Prod.fst)

/-- `value[key]`: the value at the first field named `k` (JS objects cannot
carry a duplicate key, so the first is the only one). -/
def lookupField (fs : List (String × Json)) (k : String) : Json :=
  match fs.find? (fun e => e.1 == k) with
  | some e => e.2
  | none => .null

/-- The `sortedObj` built by `serializeValue`: the fields re-listed in
ascending key order.  Only the top level is reordered; nested objects keep
their own insertion order. -/
def sortFields (fs : List (String × Json)) : List (String × Json) :=
  (sortedKeys fs).map (fun k => (k, lookupField fs k))

/-- `serializeValue`: `null`/`undefined` become JS `null` (`none`); objects
are serialized with top-level keys sorted; arrays and scalars are serialized
as-is. -/
def serializeValue : Json → Option String
  | .null => none
  | .obj fs => some ⟨stringify (.obj (sortFields fs))⟩
  | .bool b => some ⟨stringify (.bool b)⟩
  | .num n => some ⟨stringify (.num n)⟩
  | .str s => some ⟨stringify (.str s)⟩
  | .arr xs => some ⟨stringify (.arr xs)⟩

/-- Looking a key up is invariant under permuting a duplicate-free field
list. -/
theorem lookupField_perm {f g : List (String × Json)} (h : f.Perm g) :
    (f.map Prod.fst).Nodup → ∀ k, lookupField f k = lookupField g k := by
  induction h with
  | nil => intro _ k; rfl
  | cons x h ih =>
    intro hnd k
    simp only [List.map_cons, List.nodup_cons] at hnd
    cases hx : (x.1 == k) with
    | true => simp [lookupField, List.find?, hx]
    | false =>
      simp only [lookupField, List.find?, hx] at ih ⊢
      exact ih hnd.2 k
  | swap x y l =>
    intro hnd k
    simp only [List.map_cons, List.nodup_cons, List.mem_cons] at hnd
    cases hx : (x.1 == k) with
    | true =>
      cases hy : (y.1 == k) with
      | true =>
        exfalso
        have hx2 : x.1 = k := by simpa using hx
        have hy2 : y.1 = k := by simpa using hy
        exact hnd.1 (Or.inl (by rw [hx2, hy2]))
      | false => simp [lookupField, List.find?, hx, hy]
    | false =>
      cases hy : (y.1 == k) with
      | true => simp [lookupField, List.find?, hx, hy]
      | false => simp [lookupField, List.find?, hx, hy]
  | trans h1 h2 ih1 ih2 =>
    intro hnd k
    rw [ih1 hnd k, ih2 (((h1.map Prod.fst).nodup_iff).mp hnd) k]

/-- C9 (amended): `null`/`undefined` serialize to JS `null`; arrays and
scalars are serialized as-is; and two objects whose duplicate-free field
lists are permutations of one another (the same unordered key-to-value map
with syntactically identical values) serialize to the identical string.
The original claim fails for logically equal values whose difference is
nested: only top-level keys are sorted. -/
theorem serializeValue_canonical :
    serializeValue .null = none ∧
    (∀ xs, serializeValue (.arr xs) = some ⟨stringify (.arr xs)⟩) ∧
    (∀ b, serializeValue (.bool b) = some ⟨stringify (.bool b)⟩) ∧
    (∀ n, serializeValue (.num n) = some ⟨stringify (.num n)⟩) ∧
    (∀ s, serializeValue (.str s) = some ⟨stringify (.str s)⟩) ∧
    (∀ f g, f.Perm g → (f.map Prod.fst).Nodup →
      serializeValue (.obj f) = serializeValue (.obj g)) := by
  refine ⟨rfl, fun _ => rfl, fun _ => rfl, fun _ => rfl, fun _ => rfl, ?_⟩
  intro f g h hnd
  have hkeys : sortedKeys f = sortedKeys g := by
    refine List.eq_of_perm_of_sorted ?_ (List.sorted_insertionSort _ _)
      (List.sorted_insertionSort _ _)
    exact ((List.perm_insertionSort _ _).trans (h.map Prod.fst)).trans
      (List.perm_insertionSort _ _).symm
  have hfields : sortFields f = sortFields g := by
    rw [sortFields, sortFields, hkeys]
    exact List.map_congr_left (fun k _ => by rw [lookupField_perm h hnd k])
  simp [serializeValue, hfields]

/-- C9 counterexample: `{a: {y:1, x:2}}` and `{a: {x:2, y:1}}` are equal as
unordered key-to-value maps (the inner field lists are permutations), yet
serialize differently, because only top-level keys are sorted. -/
theorem c9_counterexample :
    ([("y", Json.num 1), ("x", Json.num 2)] : List (String × Json)).Perm
        [("x", Json.num 2), ("y", Json.num 1)] ∧
      serializeValue (.obj [("a", .obj [("y", .num 1), ("x", .num 2)])]) ≠
        serializeValue (.obj [("a", .obj [("x", .num 2), ("y", .num 1)])]) := by
  constructor
  · exact List.Perm.swap _ _ _
  · decide

/-- C9 witness: the object theorem applied to `{b:1, a:2}` and its
permutation `{a:2, b:1}`. -/
theorem c9_witness :
    serializeValue (.obj [("b", .num 1), ("a", .num 2)]) =
      serializeValue (.obj [("a", .num 2), ("b", .num 1)]) :=
  serializeValue_canonical.2.2.2.2.2 [("b", .num 1), ("a", .num 2)]
    [("a", .num 2), ("b", .num 1)] (List.Perm.swap _ _ _) (by decide)

/-!
The flat store.  A storage key is `globalPrefix-hash(join(path,"::"))-suffix`;
under the injective-digest model of C4 two keys coincide exactly when their
hash inputs and suffixes do, so a key is modelled as the pair
(hash input, suffix).  A stored entry holds the JSON value its stored string
parses back to (`storedOf v` is `JSON.parse(serializeValue(v))`, with `none`
for a stored JS `null`); the engine is the only writer, and every record it
writes is produced by `serializeValue`, so this parsed view is faithful.
Against a store whose operations never raise transient errors, `withRetry`
performs exactly the single underlying call (the first attempt succeeds), so
the retry wrappers of the source collapse to the wrapped operation here.
-/

/-- A storage key: the digested path string and the record suffix. -/
abbrev StoreKey := String × String

/-- The hash input for a path, `join(path, "::")`. -/
def pathKey (p : List String) : String := ⟨KeyDeriver.joinColons (p.map String.data)⟩

/-- `createStorageKey(pathArray, suffix)` under the injective-digest model. -/
def storageKey (p : List String) (suffix : String) : StoreKey := (pathKey p, suffix)

/-- One KV mutation, for write-order claims. -/
inductive KVOp where
  | put (k : StoreKey) (v : Option Json)
  | del (k : StoreKey)

/-- The backing store: newest entry first; `storePut` shadows, `storeDel`
removes every entry at the key. -/
abbrev Store := List (StoreKey × Option Json)

/-- `kv.get`: the newest entry's payload, `none` when absent (or when the
stored payload was a JS `null`, which reads back as `null` either way). -/
def storeGet (st : Store) (k : StoreKey) : Option Json :=
  match st.find? (fun e => decide (e.1 = k)) with
  | some e => e.2
  | none => none

/-- `kv.put`. -/
def storePut (st : Store) (k : StoreKey) (v : Option Json) : Store := (k, v) :: st

/-- `kv.delete`. -/
def storeDel (st : Store) (k : StoreKey) : Store :=
  st.filter (fun e => decide (e.1 ≠ k))

/-- The engine's effect type: state (store) and a trace of mutations are
threaded through both success and failure, as JavaScript exceptions leave
already-performed writes in place. -/
def M (α : Type) : Type := Store → List KVOp → Except String α × Store × List KVOp

/-- Sequencing: on failure the error propagates with the state reached. -/
def mbind {α β : Type} (x : M α) (f : α → M β) : M β := fun st tr =>
  match x st tr with
  | (.ok a, st2, tr2) => f a st2 tr2
  | (.error e, st2, tr2) => (.error e, st2, tr2)

/-- Pure result. -/
def mpure {α : Type} (a : α) : M α := fun st tr => (.ok a, st, tr)

/-- `throw new Error(e)`. -/
def mthrow {α : Type} (e : String) : M α := fun st tr => (.error e, st, tr)

/-- `try x catch (e) h(e)`. -/
def mcatch {α : Type} (x : M α) (h : String → M α) : M α := fun st tr =>
  match x st tr with
  | (.error e, st2, tr2) => h e st2 tr2
  | r => r

/-- `await this.kv.get(key)` (reliable store: never raises). -/
def kvGet (k : StoreKey) : M (Option Json) := fun st tr => (.ok (storeGet st k), st, tr)

/-- `await this.kv.put(key, value)`. -/
def kvPut (k : StoreKey) (v : Option Json) : M Unit := fun st tr =>
  (.ok (), storePut st k v, tr ++ [.put k v])

/-- `await this.kv.delete(key)`. -/
def kvDel (k : StoreKey) : M Unit := fun st tr =>
  (.ok (), storeDel st k, tr ++ [.del k])

/-- Run an engine operation on a store with an empty trace. -/
def runM {α : Type} (m : M α) (st : Store) : Except String α × Store × List KVOp :=
  m st []

/-- `pathArray.join('/')`, used in error messages. -/
def pathJoin (p : List String) : String := String.intercalate "/" p

/-- `pathArray[pathArray.length - 1]`. -/
def lastSeg (p : List String) : String := p.getLastD ""

/-- `pathArray.slice(0, -1)`. -/
def parentOf (p : List String) : List String := p.dropLast

/-- `JSON.parse(serializeValue(v))`: what a stored record reads back as.
`null`/`undefined` store a JS `null`; objects come back with top-level keys
sorted; everything else round-trips unchanged. -/
def storedOf : Json → Option Json
  | .null => none
  | .obj fs => some (.obj (sortFields fs))
  | .bool b => some (.bool b)
  | .num n => some (.num n)
  | .str s => some (.str s)
  | .arr xs => some (.arr xs)

/-- `deserializeValue(x) || []` read as a child list.  Engine-written
children records are always arrays of strings; a missing or falsy record
yields `[]` exactly as `|| []` does. -/
def asChildren : Option Json → List String
  | some (.arr xs) => xs.filterMap (fun j => match j with | .str s => some s | _ => none)
  | _ => []

/-- `nodeExists`: the value record read back non-null; the reliable-store
instance of the general try/catch shape (see `nodeExistsFrom`). -/
def nodeExists (p : List String) : M Bool :=
  mbind (kvGet (storageKey p "value")) fun v => mpure v.isSome

/-- The body of `nodeExists` over an arbitrary retrieval outcome: the
try/catch turns any error into `false`, and a `null` result into `false`. -/
def nodeExistsFrom (r : Except String (Option Json)) : Bool :=
  match r with
  | .ok v => v.isSome
  | .error _ => false

/-- `getValue`: not-found when the value record is absent. -/
def getValue (p : List String) : M Json :=
  mbind (kvGet (storageKey p "value")) fun sv =>
    match sv with
    | none => mthrow ("Node does not exist: " ++ pathJoin p)
    | some j => mpure j

/-- `getChildren`: not-found when the children record is absent. -/
def getChildren (p : List String) : M (List String) :=
  mbind (kvGet (storageKey p "children")) fun sc =>
    match sc with
    | none => mthrow ("Node does not exist: " ++ pathJoin p)
    | some j => mpure (asChildren (some j))

/-- The snapshot `getNode` returns. -/
structure NodeSnap where
  path : List String
  value : Json
  children : List String
  hasChildren : Bool

/-- `getNode`: both records fetched; `hasChildren` is `children.length > 0`.
(The source fetches via `Promise.all`; both error messages are the same
not-found text, so sequencing value-first is observationally faithful.) -/
def getNode (p : List String) : M NodeSnap :=
  mbind (getValue p) fun v =>
    mbind (getChildren p) fun c =>
      mpure ⟨p, v, c, !c.isEmpty⟩

/-- C8: `nodeExists` never raises — it is a total boolean — and it returns
`true` exactly when the retrieval completed without error with a non-null
result; both an absent record and a failed retrieval yield `false`.  The
reliable-store `nodeExists` is the instance at a successful read. -/
theorem nodeExists_total_iff :
    (∀ r, nodeExistsFrom r = true ↔ ∃ j, r = .ok (some j)) ∧
    (∀ st tr p, nodeExists p st tr =
      (.ok (nodeExistsFrom (.ok (storeGet st (storageKey p "value")))), st, tr)) := by
  constructor
  · intro r
    cases r with
    | ok v =>
      cases v with
      | none => simp [nodeExistsFrom]
      | some j => simp [nodeExistsFrom]
    | error e => simp [nodeExistsFrom]
  · intro st tr p
    cases h : storeGet st (storageKey p "value") with
    | none => simp [nodeExists, mbind, kvGet, mpure, nodeExistsFrom, h]
    | some j => simp [nodeExists, mbind, kvGet, mpure, nodeExistsFrom, h]

/-- C10: `getNode` raises not-found when either record is absent, and
otherwise returns the snapshot with the argument path, the two deserialized
records, and `hasChildren` true exactly when the children list is
non-empty. -/
theorem getNode_spec :
    ∀ st p,
      (storeGet st (storageKey p "value") = none →
        runM (getNode p) st =
          (.error ("Node does not exist: " ++ pathJoin p), st, [])) ∧
      (∀ v, storeGet st (storageKey p "value") = some v →
        storeGet st (storageKey p "children") = none →
        runM (getNode p) st =
          (.error ("Node does not exist: " ++ pathJoin p), st, [])) ∧
      (∀ v c, storeGet st (storageKey p "value") = some v →
        storeGet st (storageKey p "children") = some c →
        runM (getNode p) st =
          (.ok ⟨p, v, asChildren (some c), !(asChildren (some c)).isEmpty⟩, st, [])) := by
  intro st p
  refine ⟨?_, ?_, ?_⟩
  · intro hv
    simp [runM, getNode, getValue, mbind, kvGet, mthrow, hv]
  · intro v hv hc
    simp [runM, getNode, getValue, getChildren, mbind, kvGet, mthrow, mpure, hv, hc]
  · intro v c hv hc
    simp [runM, getNode, getValue, getChildren, mbind, kvGet, mthrow, mpure, hv, hc]

/-- `addChildToParent`: read the parent's children record, append the child
key if it is not already present, and write back. -/
def addChildToParent (parentPath : List String) (childKey : String) : M Unit :=
  mbind (kvGet (storageKey parentPath "children")) fun cur =>
    if childKey ∈ asChildren cur then mpure ()
    else kvPut (storageKey parentPath "children")
      (some (.arr ((asChildren cur ++ [childKey]).map Json.str)))

/-- `removeChildFromParent`: read, filter the child key out, write back
unconditionally. -/
def removeChildFromParent (parentPath : List String) (childKey : String) : M Unit :=
  mbind (kvGet (storageKey parentPath "children")) fun cur =>
    kvPut (storageKey parentPath "children")
      (some (.arr (((asChildren cur).filter (fun k => decide (k ≠ childKey))).map Json.str)))

/-- `createNode`: reject re-creating an existing root; reject a non-root
whose parent is missing; otherwise write the value record, the parent
record (non-root only), the empty children record, then link into the
parent's children list (non-root only). -/
def createNode (p : List String) (v : Json) : M Unit :=
  mbind (if p = [] then
      mbind (nodeExists []) fun ex =>
        if ex then mthrow "Root node already exists" else mpure ()
    else mpure ()) fun _ =>
  mbind (if p = [] then mpure () else
      mbind (nodeExists (parentOf p)) fun pex =>
        if pex then mpure ()
        else mthrow ("Parent node does not exist: " ++ pathJoin (parentOf p))) fun _ =>
  mbind (kvPut (storageKey p "value") (storedOf v)) fun _ =>
  mbind (if p = [] then mpure () else
      kvPut (storageKey p "parent") (some (.arr ((parentOf p).map Json.str)))) fun _ =>
  mbind (kvPut (storageKey p "children") (some (.arr []))) fun _ =>
  if p = [] then mpure () else addChildToParent (parentOf p) (lastSeg p)

/-- Appending one more segment strictly lengthens the `::`-joined string
(except for the empty segment appended to the empty path). -/
theorem joinColons_length_lt (q : List (List Char)) (s : List Char)
    (h : q ≠ [] ∨ s ≠ []) :
    (KeyDeriver.joinColons q).length < (KeyDeriver.joinColons (q ++ [s])).length := by
  induction q with
  | nil =>
    rcases h with h | h
    · exact absurd rfl h
    · simpa [KeyDeriver.joinColons] using List.length_pos.mpr h
  | cons a q' ih =>
    cases q' with
    | nil => simp [KeyDeriver.joinColons]
    | cons b q'' =>
      have := ih (Or.inl (by simp))
      simp only [KeyDeriver.joinColons, List.cons_append, List.length_append,
        List.length_cons, List.append_eq] at this ⊢
      omega

/-- A non-root path other than `[""]` never shares its hash input with its
parent. -/
theorem pathKey_ne_parent (p : List String) (h1 : p ≠ []) (h2 : p ≠ [""]) :
    pathKey p ≠ pathKey (parentOf p) := by
  rcases List.eq_nil_or_concat p with rfl | ⟨q, s, rfl⟩
  · exact absurd rfl h1
  · rw [List.concat_eq_append] at h2 ⊢
    have hparent : parentOf (q ++ [s]) = q := by
      simp [parentOf]
    rw [hparent]
    have hcond : q.map String.data ≠ [] ∨ s.data ≠ [] := by
      cases q with
      | nil =>
        right
        intro hd
        exact h2 (by simp [show s = "" from congrArg String.mk hd])
      | cons a q2 => exact Or.inl (by simp)
    have hlt := joinColons_length_lt (q.map String.data) s.data hcond
    intro heq
    have hdata := congrArg String.data heq
    simp only [pathKey, List.map_append, List.map_cons, List.map_nil] at hdata
    rw [hdata] at hlt
    omega

/-- Distinct hash inputs give distinct storage keys whatever the suffixes. -/
theorem storageKey_ne_of_pathKey_ne {p q : List String} (h : pathKey p ≠ pathKey q)
    (s1 s2 : String) : storageKey p s1 ≠ storageKey q s2 := by
  intro heq
  exact h (congrArg Prod.fst heq)

/-- A put at one key leaves reads of any other key unchanged. -/
theorem storeGet_put_ne (st : Store) (k k' : StoreKey) (v : Option Json) (h : k ≠ k') :
    storeGet (storePut st k v) k' = storeGet st k' := by
  simp [storeGet, storePut, List.find?, h]

/-- C5: `createNode` fails on re-creating an existing root and on a missing
parent; otherwise it performs, in order, the value put, the parent-record
put (non-root only), the empty-children put, and finally the parent-link
update, which is skipped when the segment is already listed.  (The non-root
case assumes `p ≠ [""]`, whose storage key would collide with the root's
under the injective-digest key model.) -/
theorem createNode_spec :
    ∀ (st : Store) (p : List String) (v : Json),
      (p = [] → (storeGet st (storageKey [] "value")).isSome = true →
        runM (createNode p v) st = (.error "Root node already exists", st, [])) ∧
      (p ≠ [] → (storeGet st (storageKey (parentOf p) "value")).isSome = false →
        runM (createNode p v) st =
          (.error ("Parent node does not exist: " ++ pathJoin (parentOf p)), st, [])) ∧
      (p = [] → storeGet st (storageKey [] "value") = none →
        ∃ st2, runM (createNode p v) st = (.ok (), st2,
          [.put (storageKey [] "value") (storedOf v),
           .put (storageKey [] "children") (some (.arr []))])) ∧
      (p ≠ [] → p ≠ [""] → (storeGet st (storageKey (parentOf p) "value")).isSome = true →
        ∃ st2, runM (createNode p v) st = (.ok (), st2,
          [.put (storageKey p "value") (storedOf v),
           .put (storageKey p "parent") (some (.arr ((parentOf p).map Json.str))),
           .put (storageKey p "children") (some (.arr []))] ++
          (if lastSeg p ∈ asChildren (storeGet st (storageKey (parentOf p) "children"))
           then []
           else [.put (storageKey (parentOf p) "children")
             (some (.arr ((asChildren (storeGet st (storageKey (parentOf p) "children"))
               ++ [lastSeg p]).map Json.str)))]))) := by
  intro st p v
  refine ⟨?_, ?_, ?_, ?_⟩
  · intro hp hex
    subst hp
    simp [runM, createNode, mbind, mpure, mthrow, nodeExists, kvGet, hex]
  · intro hp hnex
    simp [runM, createNode, mbind, mpure, mthrow, nodeExists, kvGet, hp, hnex]
  · intro hp hnone
    subst hp
    refine ⟨storePut (storePut st (storageKey [] "value") (storedOf v))
      (storageKey [] "children") (some (.arr [])), ?_⟩
    simp [runM, createNode, mbind, mpure, mthrow, nodeExists, kvGet, kvPut, hnone]
  · intro hp hp1 hex
    have hne := pathKey_ne_parent p hp hp1
    have h1 : storageKey p "value" ≠ storageKey (parentOf p) "children" :=
      storageKey_ne_of_pathKey_ne hne _ _
    have h2 : storageKey p "parent" ≠ storageKey (parentOf p) "children" :=
      storageKey_ne_of_pathKey_ne hne _ _
    have h3 : storageKey p "children" ≠ storageKey (parentOf p) "children" :=
      storageKey_ne_of_pathKey_ne hne _ _
    refine ⟨(if lastSeg p ∈ asChildren (storeGet st (storageKey (parentOf p) "children"))
      then storePut (storePut (storePut st (storageKey p "value") (storedOf v))
        (storageKey p "parent") (some (.arr ((parentOf p).map Json.str))))
        (storageKey p "children") (some (.arr []))
      else storePut (storePut (storePut (storePut st (storageKey p "value") (storedOf v))
        (storageKey p "parent") (some (.arr ((parentOf p).map Json.str))))
        (storageKey p "children") (some (.arr [])))
        (storageKey (parentOf p) "children")
        (some (.arr ((asChildren (storeGet st (storageKey (parentOf p) "children"))
          ++ [lastSeg p]).map Json.str)))), ?_⟩
    have e1 : ∀ st', storeGet (storePut st' (storageKey p "value") (storedOf v))
        (storageKey (parentOf p) "children") =
        storeGet st' (storageKey (parentOf p) "children") :=
      fun st' => storeGet_put_ne st' _ _ _ h1
    have e2 : ∀ st' w, storeGet (storePut st' (storageKey p "parent") w)
        (storageKey (parentOf p) "children") =
        storeGet st' (storageKey (parentOf p) "children") :=
      fun st' w => storeGet_put_ne st' _ _ _ h2
    have e3 : ∀ st' w, storeGet (storePut st' (storageKey p "children") w)
        (storageKey (parentOf p) "children") =
        storeGet st' (storageKey (parentOf p) "children") :=
      fun st' w => storeGet_put_ne st' _ _ _ h3
    by_cases hmem : lastSeg p ∈ asChildren (storeGet st (storageKey (parentOf p) "children"))
    · simp [runM, createNode, mbind, mpure, mthrow, nodeExists, kvGet, kvPut,
        addChildToParent, hp, hex, e1, e2, e3, hmem]
    · simp [runM, createNode, mbind, mpure, mthrow, nodeExists, kvGet, kvPut,
        addChildToParent, hp, hex, e1, e2, e3, hmem]

/-- C5 witness: creating `["a"]` under an existing root writes the four
records in order. -/
theorem c5_witness :
    ∃ st2, runM (createNode ["a"] (.str "v"))
        [((pathKey [], "value"), some (.str "r")), ((pathKey [], "children"), some (.arr []))] =
      (.ok (), st2,
        [.put (storageKey ["a"] "value") (some (.str "v")),
         .put (storageKey ["a"] "parent") (some (.arr [])),
         .put (storageKey ["a"] "children") (some (.arr [])),
         .put (storageKey [] "children") (some (.arr [.str "a"]))]) := by
  obtain ⟨st2, h⟩ := (createNode_spec
    [((pathKey [], "value"), some (.str "r")), ((pathKey [], "children"), some (.arr []))]
    ["a"] (.str "v")).2.2.2 (by simp) (by simp) rfl
  refine ⟨st2, ?_⟩
  rw [h]
  rfl

/-- Sequencing through a known successful sub-computation. -/
theorem mbind_ok {α β : Type} {x : M α} {f : α → M β} {st : Store} {tr : List KVOp}
    {a : α} {st2 : Store} {tr2 : List KVOp} (h : x st tr = (.ok a, st2, tr2)) :
    mbind x f st tr = f a st2 tr2 := by
  simp [mbind, h]

/-- Sequencing through a known failing sub-computation. -/
theorem mbind_err {α β : Type} {x : M α} {f : α → M β} {st : Store} {tr : List KVOp}
    {e : String} {st2 : Store} {tr2 : List KVOp} (h : x st tr = (.error e, st2, tr2)) :
    mbind x f st tr = (.error e, st2, tr2) := by
  simp [mbind, h]

/-- A try/catch whose body succeeds. -/
theorem mcatch_ok {α : Type} {x : M α} {hnd : String → M α} {st : Store} {tr : List KVOp}
    {a : α} {st2 : Store} {tr2 : List KVOp} (h : x st tr = (.ok a, st2, tr2)) :
    mcatch x hnd st tr = (.ok a, st2, tr2) := by
  simp [mcatch, h]

/-- A try/catch whose body fails runs the handler from the state reached. -/
theorem mcatch_err {α : Type} {x : M α} {hnd : String → M α} {st : Store} {tr : List KVOp}
    {e : String} {st2 : Store} {tr2 : List KVOp} (h : x st tr = (.error e, st2, tr2)) :
    mcatch x hnd st tr = hnd e st2 tr2 := by
  simp [mcatch, h]

/-- A delete at one key leaves reads of any other key unchanged. -/
theorem storeGet_del_ne (st : Store) (k k' : StoreKey) (h : k' ≠ k) :
    storeGet (storeDel st k) k' = storeGet st k' := by
  induction st with
  | nil => rfl
  | cons e st' ih =>
    by_cases he : e.1 = k
    · have h1 : decide (e.1 ≠ k) = false := by simp [he]
      have h2 : decide (e.1 = k') = false := by
        simp only [decide_eq_false_iff_not]
        intro hh
        exact h (by rw [← hh, he])
      simp only [storeDel, List.filter_cons, h1, Bool.false_eq_true, if_false]
      rw [← storeDel]
      rw [ih]
      simp [storeGet, List.find?, h2]
    · have h1 : decide (e.1 ≠ k) = true := by simp [he]
      simp only [storeDel, List.filter_cons, h1, if_true]
      rw [← storeDel]
      cases h2 : decide (e.1 = k') with
      | true => simp [storeGet, List.find?, h2]
      | false =>
        simp only [storeGet, List.find?, h2]
        rw [← storeGet, ← storeGet, ih]

/-- `deleteSingleNode`: delete the value, children and (non-root) parent
records, in that order. -/
def deleteSingleNode (p : List String) : M Unit :=
  mbind (kvDel (storageKey p "value")) fun _ =>
  mbind (kvDel (storageKey p "children")) fun _ =>
  if p = [] then mpure () else kvDel (storageKey p "parent")

/-- The deletions `deleteSingleNode` performs. -/
def nodeDelOps (q : List String) : List KVOp :=
  [.del (storageKey q "value"), .del (storageKey q "children")] ++
  (if q = [] then [] else [.del (storageKey q "parent")])

/-- The deletion loop over the reversed path list. -/
def deleteAll : List (List String) → M Unit
  | [] => mpure ()
  | p :: ps => mbind (deleteSingleNode p) fun _ => deleteAll ps

/-- The queue loop of `collectDescendants`: pop a path, read its children
(a failed read skips the node, as the catch/continue does), and push each
child path onto both the result and the queue.  `fuel` bounds the number of
iterations; every run of the source loop on a finite store is reproduced by
a large enough fuel. -/
def collectGo : Nat → List (List String) → List (List String) → M (List (List String))
  | _, [], acc => mpure acc
  | 0, _ :: _, acc => mpure acc
  | fuel + 1, cur :: rest, acc =>
    mbind (mcatch (mbind (getChildren cur) fun cs => mpure (some cs)) (fun _ => mpure none))
      fun res =>
      match res with
      | none => collectGo fuel rest acc
      | some cs =>
        collectGo fuel (rest ++ cs.map (fun k => cur ++ [k]))
          (acc ++ cs.map (fun k => cur ++ [k]))

/-- `collectDescendants`. -/
def collectDescendants (fuel : Nat) (p : List String) : M (List (List String)) :=
  collectGo fuel [p] []

/-- The value `collectGo` computes, as a pure function of the store it only
reads. -/
def collectPure (st : Store) : Nat → List (List String) → List (List String) →
    List (List String)
  | _, [], acc => acc
  | 0, _ :: _, acc => acc
  | fuel + 1, cur :: rest, acc =>
    match storeGet st (storageKey cur "children") with
    | none => collectPure st fuel rest acc
    | some j =>
      collectPure st fuel (rest ++ (asChildren (some j)).map (fun k => cur ++ [k]))
        (acc ++ (asChildren (some j)).map (fun k => cur ++ [k]))

/-- `collectGo` only reads: it returns `collectPure` and leaves state and
trace untouched. -/
theorem collectGo_eq (st : Store) :
    ∀ fuel (q acc : List (List String)) (tr : List KVOp),
      collectGo fuel q acc st tr = (.ok (collectPure st fuel q acc), st, tr) := by
  intro fuel
  induction fuel with
  | zero =>
    intro q acc tr
    cases q with
    | nil => rfl
    | cons cur rest => rfl
  | succ fuel ih =>
    intro q acc tr
    cases q with
    | nil => rfl
    | cons cur rest =>
      cases hg : storeGet st (storageKey cur "children") with
      | none =>
        have hbody : (mbind (getChildren cur) fun cs => mpure (some cs)) st tr =
            (.error ("Node does not exist: " ++ pathJoin cur), st, tr) := by
          simp [getChildren, mbind, kvGet, mthrow, hg]
        rw [collectGo, mbind_ok (mcatch_err hbody)]
        show collectGo fuel rest acc st tr = _
        rw [ih]
        rw [show collectPure st (fuel + 1) (cur :: rest) acc = collectPure st fuel rest acc
          from by rw [collectPure, hg]]
      | some j =>
        have hbody : (mbind (getChildren cur) fun cs => mpure (some cs)) st tr =
            (.ok (some (asChildren (some j))), st, tr) := by
          simp [getChildren, mbind, kvGet, mpure, hg]
        rw [collectGo, mbind_ok (mcatch_ok hbody)]
        show collectGo fuel (rest ++ (asChildren (some j)).map (fun k => cur ++ [k]))
          (acc ++ (asChildren (some j)).map (fun k => cur ++ [k])) st tr = _
        rw [ih]
        rw [show collectPure st (fuel + 1) (cur :: rest) acc =
          collectPure st fuel (rest ++ (asChildren (some j)).map (fun k => cur ++ [k]))
            (acc ++ (asChildren (some j)).map (fun k => cur ++ [k]))
          from by rw [collectPure, hg]]

/-- Every path `collectPure` returns extends the paths fed into the
queue. -/
theorem collectPure_ext (st : Store) (p : List String) :
    ∀ fuel (q acc : List (List String)),
      (∀ x ∈ q, ∃ t, x = p ++ t) → (∀ x ∈ acc, ∃ t, x = p ++ t) →
      ∀ x ∈ collectPure st fuel q acc, ∃ t, x = p ++ t := by
  intro fuel
  induction fuel with
  | zero =>
    intro q acc hq hacc x hx
    cases q with
    | nil => exact hacc x hx
    | cons cur rest => exact hacc x hx
  | succ fuel ih =>
    intro q acc hq hacc x hx
    cases q with
    | nil => exact hacc x hx
    | cons cur rest =>
      obtain ⟨t, ht⟩ := hq cur (by simp)
      cases hg : storeGet st (storageKey cur "children") with
      | none =>
        rw [collectPure, hg] at hx
        exact ih rest acc (fun y hy => hq y (by simp [hy])) hacc x hx
      | some j =>
        rw [collectPure, hg] at hx
        refine ih _ _ ?_ ?_ x hx
        · intro y hy
          rcases List.mem_append.mp hy with h1 | h1
          · exact hq y (by simp [h1])
          · obtain ⟨k, _, rfl⟩ := List.mem_map.mp h1
            exact ⟨t ++ [k], by rw [ht, List.append_assoc]⟩
        · intro y hy
          rcases List.mem_append.mp hy with h1 | h1
          · exact hacc y h1
          · obtain ⟨k, _, rfl⟩ := List.mem_map.mp h1
            exact ⟨t ++ [k], by rw [ht, List.append_assoc]⟩

/-- `deleteAll` on paths whose records all live at keys other than `k`:
it succeeds, appends each node's deletions in order, and leaves reads of
`k` unchanged. -/
theorem deleteAll_spec (k : StoreKey) :
    ∀ (paths : List (List String)) (st : Store) (tr : List KVOp),
      (∀ q ∈ paths, pathKey q ≠ k.1) →
      ∃ st2, deleteAll paths st tr = (.ok (), st2, tr ++ (paths.map nodeDelOps).flatten) ∧
        storeGet st2 k = storeGet st k := by
  intro paths
  induction paths with
  | nil =>
    intro st tr _
    exact ⟨st, by simp [deleteAll, mpure], rfl⟩
  | cons q ps ih =>
    intro st tr hne
    have hq : ∀ s : String, k ≠ storageKey q s := by
      intro s heq
      exact hne q (by simp) (by rw [heq]; rfl)
    have hsingle : ∀ st', ∃ st'', deleteSingleNode q st' tr = (.ok (), st'', tr ++ nodeDelOps q) ∧
        storeGet st'' k = storeGet st' k := by
      intro st'
      by_cases hq0 : q = []
      · refine ⟨storeDel (storeDel st' (storageKey q "value")) (storageKey q "children"),
          ?_, ?_⟩
        · simp [deleteSingleNode, mbind, kvDel, nodeDelOps, hq0, mpure]
        · rw [storeGet_del_ne _ _ _ (hq "children"), storeGet_del_ne _ _ _ (hq "value")]
      · refine ⟨storeDel (storeDel (storeDel st' (storageKey q "value"))
          (storageKey q "children")) (storageKey q "parent"), ?_, ?_⟩
        · simp [deleteSingleNode, mbind, kvDel, nodeDelOps, hq0, mpure]
        · rw [storeGet_del_ne _ _ _ (hq "parent"), storeGet_del_ne _ _ _ (hq "children"),
            storeGet_del_ne _ _ _ (hq "value")]
    obtain ⟨st'', h1, h2⟩ := hsingle st
    obtain ⟨st3, h3, h4⟩ := ih st'' (tr ++ nodeDelOps q) (fun x hx => hne x (by simp [hx]))
    refine ⟨st3, ?_, by rw [h4, h2]⟩
    rw [deleteAll, mbind_ok h1, h3]
    simp

/-- `deleteNode`: reject root; reject a missing node; collect descendants
breadth-first; delete the combined list in reverse (leaves before
ancestors); unlink from the parent; wrap any phase-2 error with context. -/
def deleteNode (fuel : Nat) (p : List String) : M Unit :=
  if p = [] then mthrow "Cannot delete root node" else
  mbind (nodeExists p) fun ex =>
    if ex then
      mbind (collectDescendants fuel p) fun descendants =>
        mcatch
          (mbind (deleteAll ((p :: descendants).reverse)) fun _ =>
            removeChildFromParent (parentOf p) (lastSeg p))
          (fun e => mthrow ("Failed to delete node " ++ pathJoin p ++ ": " ++ e))
    else mthrow ("Node does not exist: " ++ pathJoin p)

/-- Length of the hash input of a path. -/
def pkLen (p : List String) : Nat := (KeyDeriver.joinColons (p.map String.data)).length

/-- Paths with hash inputs of different lengths get different hash
inputs. -/
theorem pathKey_ne_of_len {p q : List String} (h : pkLen p ≠ pkLen q) :
    pathKey p ≠ pathKey q := by
  intro heq
  apply h
  have h2 : KeyDeriver.joinColons (p.map String.data) =
      KeyDeriver.joinColons (q.map String.data) := congrArg String.data heq
  rw [pkLen, pkLen, h2]

/-- Appending one segment never shortens the hash input. -/
theorem joinColons_length_le (q : List (List Char)) (s : List Char) :
    (KeyDeriver.joinColons q).length ≤ (KeyDeriver.joinColons (q ++ [s])).length := by
  by_cases h : q = []
  · subst h
    simp [KeyDeriver.joinColons]
  · exact le_of_lt (joinColons_length_lt q s (Or.inl h))

/-- A non-root path other than `[""]` has a strictly longer hash input than
its parent. -/
theorem pkLen_parent_lt (p : List String) (h1 : p ≠ []) (h2 : p ≠ [""]) :
    pkLen (parentOf p) < pkLen p := by
  rcases List.eq_nil_or_concat p with rfl | ⟨q, s, rfl⟩
  · exact absurd rfl h1
  · rw [List.concat_eq_append] at h2 ⊢
    have hparent : parentOf (q ++ [s]) = q := by simp [parentOf]
    rw [hparent]
    have hcond : q.map String.data ≠ [] ∨ s.data ≠ [] := by
      cases q with
      | nil =>
        right
        intro hd
        exact h2 (by simp [show s = "" from congrArg String.mk hd])
      | cons a q2 => exact Or.inl (by simp)
    have hlt := joinColons_length_lt (q.map String.data) s.data hcond
    simp only [pkLen, List.map_append, List.map_cons, List.map_nil]
    exact hlt

/-- Extending a path never shortens the hash input. -/
theorem pkLen_le_append (p t : List String) : pkLen p ≤ pkLen (p ++ t) := by
  induction t generalizing p with
  | nil => simp
  | cons s rest ih =>
    calc pkLen p ≤ pkLen (p ++ [s]) := by
          simp only [pkLen, List.map_append, List.map_cons, List.map_nil]
          exact joinColons_length_le (p.map String.data) s.data
      _ ≤ pkLen ((p ++ [s]) ++ rest) := ih (p ++ [s])
      _ = pkLen (p ++ s :: rest) := by rw [List.append_assoc, List.singleton_append]

/-- C6: `deleteNode` rejects the root; fails on a missing node; and on an
existing non-root node it deletes the flat records of the node and every
collected descendant in reverse (leaves-before-ancestors) order of the
combined `[self] ++ descendants` list, then writes the parent's children
record with the node's last segment filtered out.  (`p ≠ [""]` keeps the
node's storage keys distinct from the root's under the key model.) -/
theorem deleteNode_spec :
    ∀ (fuel : Nat) (st : Store) (p : List String),
      (p = [] → runM (deleteNode fuel p) st = (.error "Cannot delete root node", st, [])) ∧
      (p ≠ [] → storeGet st (storageKey p "value") = none →
        runM (deleteNode fuel p) st =
          (.error ("Node does not exist: " ++ pathJoin p), st, [])) ∧
      (p ≠ [] → p ≠ [""] → (storeGet st (storageKey p "value")).isSome = true →
        ∃ st2, runM (deleteNode fuel p) st = (.ok (), st2,
          (((p :: collectPure st fuel [p] []).reverse).map nodeDelOps).flatten ++
          [.put (storageKey (parentOf p) "children")
            (some (.arr (((asChildren (storeGet st (storageKey (parentOf p) "children"))).filter
              (fun s => decide (s ≠ lastSeg p))).map Json.str)))])) := by
  intro fuel st p
  refine ⟨?_, ?_, ?_⟩
  · intro hp
    subst hp
    simp [runM, deleteNode, mthrow]
  · intro hp hnone
    simp [runM, deleteNode, mbind, nodeExists, kvGet, mpure, mthrow, hp, hnone]
  · intro hp hp1 hex
    have hallne : ∀ q ∈ (p :: collectPure st fuel [p] []).reverse,
        pathKey q ≠ (storageKey (parentOf p) "children").1 := by
      intro q hq
      rw [List.mem_reverse] at hq
      have hlen : pkLen (parentOf p) < pkLen q := by
        rcases List.mem_cons.mp hq with rfl | hq2
        · exact pkLen_parent_lt q hp hp1
        · obtain ⟨t, rfl⟩ := collectPure_ext st p fuel [p] []
            (fun x hx => by
              simp only [List.mem_singleton] at hx
              exact ⟨[], by rw [hx, List.append_nil]⟩)
            (by simp) q hq2
          calc pkLen (parentOf p) < pkLen p := pkLen_parent_lt p hp hp1
            _ ≤ pkLen (p ++ t) := pkLen_le_append p t
      exact pathKey_ne_of_len (by omega)
    obtain ⟨st2, hdel, hget⟩ := deleteAll_spec (storageKey (parentOf p) "children")
      ((p :: collectPure st fuel [p] []).reverse) st [] hallne
    have hexists : nodeExists p st [] = (.ok true, st, []) := by
      simp [nodeExists, mbind, kvGet, mpure, hex]
    have hcollect : collectDescendants fuel p st [] =
        (.ok (collectPure st fuel [p] []), st, []) := collectGo_eq st fuel [p] [] []
    have hbody : (mbind (deleteAll ((p :: collectPure st fuel [p] []).reverse)) fun _ =>
        removeChildFromParent (parentOf p) (lastSeg p)) st [] =
        (.ok (), storePut st2 (storageKey (parentOf p) "children")
          (some (.arr (((asChildren (storeGet st (storageKey (parentOf p) "children"))).filter
            (fun s => decide (s ≠ lastSeg p))).map Json.str))),
          (((p :: collectPure st fuel [p] []).reverse).map nodeDelOps).flatten ++
          [.put (storageKey (parentOf p) "children")
            (some (.arr (((asChildren (storeGet st (storageKey (parentOf p) "children"))).filter
              (fun s => decide (s ≠ lastSeg p))).map Json.str)))]) := by
      rw [mbind_ok hdel]
      simp [removeChildFromParent, mbind, kvGet, kvPut, mpure, hget]
    refine ⟨storePut st2 (storageKey (parentOf p) "children")
      (some (.arr (((asChildren (storeGet st (storageKey (parentOf p) "children"))).filter
        (fun s => decide (s ≠ lastSeg p))).map Json.str))), ?_⟩
    rw [runM, deleteNode, if_neg hp, mbind_ok hexists]
    show (mbind (collectDescendants fuel p) fun descendants =>
        mcatch (mbind (deleteAll ((p :: descendants).reverse)) fun _ =>
          removeChildFromParent (parentOf p) (lastSeg p))
          (fun e => mthrow ("Failed to delete node " ++ pathJoin p ++ ": " ++ e))) st [] = _
    rw [mbind_ok hcollect]
    exact mcatch_ok hbody

mutual

/-- `copySubtree`: read the source node, create the destination node with
its value, then recurse into each child in list order.  `fuel` bounds the
recursion depth; running out raises, standing for a run the model cannot
finish (any actual run of the source on a finite tree is reproduced by a
large enough fuel). -/
def copySubtree : Nat → List String → List String → String → M Unit
  | 0, _, _, _ => mthrow "copySubtree: recursion limit"
  | fuel + 1, src, tgtParent, newKey =>
    mbind (getNode src) fun node =>
      mbind (createNode (tgtParent ++ [newKey]) node.value) fun _ =>
        copyChildren fuel src (tgtParent ++ [newKey]) node.children
termination_by fuel _ _ _ => (fuel, 0)

/-- The child loop of `copySubtree`. -/
def copyChildren : Nat → List String → List String → List String → M Unit
  | _, _, _, [] => mpure ()
  | fuel, src, newPath, k :: ks =>
    mbind (copySubtree fuel (src ++ [k]) newPath k) fun _ =>
      copyChildren fuel src newPath ks
termination_by fuel _ _ ks => (fuel, ks.length + 1)

end

/-- `moveNode`: validations, then copy-then-delete; on failure, a
best-effort delete of the destination whose own failure is swallowed, then
the original error re-raised with context. -/
def moveNode (fuelC fuelD : Nat) (sourcePath targetParentPath : List String)
    (newKey : String) : M Unit :=
  if sourcePath = [] then mthrow "Cannot move root node" else
  mbind (nodeExists sourcePath) fun srcEx =>
    if srcEx then
      mbind (nodeExists targetParentPath) fun tgtEx =>
        if tgtEx then
          mbind (nodeExists (targetParentPath ++ [newKey])) fun newEx =>
            if newEx then
              mthrow ("Target path already exists: " ++ pathJoin (targetParentPath ++ [newKey]))
            else
              mcatch
                (mbind (copySubtree fuelC sourcePath targetParentPath newKey) fun _ =>
                  deleteNode fuelD sourcePath)
                (fun e =>
                  mbind (mcatch (deleteNode fuelD (targetParentPath ++ [newKey]))
                      (fun _ => mpure ()))
                    (fun _ => mthrow ("Failed to move node: " ++ e)))
        else mthrow ("Target parent does not exist: " ++ pathJoin targetParentPath)
    else mthrow ("Source node does not exist: " ++ pathJoin sourcePath)

/-- A catch that swallows always succeeds, keeping whatever state and trace
the attempt reached. -/
theorem mcatch_swallow (x : M Unit) (st : Store) (tr : List KVOp) :
    mcatch x (fun _ => mpure ()) st tr =
      (.ok (), (mcatch x (fun _ => mpure ()) st tr).2.1,
        (mcatch x (fun _ => mpure ()) st tr).2.2) := by
  rcases hx : x st tr with ⟨r, st2, tr2⟩
  cases r with
  | ok a =>
    cases a
    simp [mcatch, hx]
  | error e => simp [mcatch, hx, mpure]

/-- C7: `moveNode` rejects moving the root, a missing source, a missing
target parent, and an occupied destination; otherwise it runs the copy
phase then the delete phase, passing a success through unchanged, and on
any failure of either phase it attempts the destination cleanup —
whose own outcome is swallowed — and raises the original error wrapped
with context, from the state the cleanup attempt reached. -/
theorem moveNode_spec :
    ∀ (fuelC fuelD : Nat) (st : Store) (src tgtParent : List String) (newKey : String),
      (src = [] → runM (moveNode fuelC fuelD src tgtParent newKey) st =
        (.error "Cannot move root node", st, [])) ∧
      (src ≠ [] → storeGet st (storageKey src "value") = none →
        runM (moveNode fuelC fuelD src tgtParent newKey) st =
          (.error ("Source node does not exist: " ++ pathJoin src), st, [])) ∧
      (src ≠ [] → (storeGet st (storageKey src "value")).isSome = true →
        storeGet st (storageKey tgtParent "value") = none →
        runM (moveNode fuelC fuelD src tgtParent newKey) st =
          (.error ("Target parent does not exist: " ++ pathJoin tgtParent), st, [])) ∧
      (src ≠ [] → (storeGet st (storageKey src "value")).isSome = true →
        (storeGet st (storageKey tgtParent "value")).isSome = true →
        (storeGet st (storageKey (tgtParent ++ [newKey]) "value")).isSome = true →
        runM (moveNode fuelC fuelD src tgtParent newKey) st =
          (.error ("Target path already exists: " ++ pathJoin (tgtParent ++ [newKey])), st, [])) ∧
      (src ≠ [] → (storeGet st (storageKey src "value")).isSome = true →
        (storeGet st (storageKey tgtParent "value")).isSome = true →
        storeGet st (storageKey (tgtParent ++ [newKey]) "value") = none →
        (∀ st2 tr2, (mbind (copySubtree fuelC src tgtParent newKey) fun _ =>
            deleteNode fuelD src) st [] = (.ok (), st2, tr2) →
          runM (moveNode fuelC fuelD src tgtParent newKey) st = (.ok (), st2, tr2)) ∧
        (∀ e st2 tr2, (mbind (copySubtree fuelC src tgtParent newKey) fun _ =>
            deleteNode fuelD src) st [] = (.error e, st2, tr2) →
          runM (moveNode fuelC fuelD src tgtParent newKey) st =
            (.error ("Failed to move node: " ++ e),
             (mcatch (deleteNode fuelD (tgtParent ++ [newKey])) (fun _ => mpure ()) st2 tr2).2.1,
             (mcatch (deleteNode fuelD (tgtParent ++ [newKey])) (fun _ => mpure ()) st2 tr2).2.2))) := by
  intro fuelC fuelD st src tgtParent newKey
  refine ⟨?_, ?_, ?_, ?_, ?_⟩
  · intro hsrc
    subst hsrc
    simp [runM, moveNode, mthrow]
  · intro hsrc hnone
    simp [runM, moveNode, mbind, nodeExists, kvGet, mpure, mthrow, hsrc, hnone]
  · intro hsrc hsome hnone
    simp [runM, moveNode, mbind, nodeExists, kvGet, mpure, mthrow, hsrc, hsome, hnone]
  · intro hsrc hsome htgt hnew
    simp [runM, moveNode, mbind, nodeExists, kvGet, mpure, mthrow, hsrc, hsome, htgt, hnew]
  · intro hsrc hsome htgt hnew
    have hsetup : runM (moveNode fuelC fuelD src tgtParent newKey) st =
        mcatch
          (mbind (copySubtree fuelC src tgtParent newKey) fun _ => deleteNode fuelD src)
          (fun e =>
            mbind (mcatch (deleteNode fuelD (tgtParent ++ [newKey])) (fun _ => mpure ()))
              (fun _ => mthrow ("Failed to move node: " ++ e))) st [] := by
      simp [runM, moveNode, mbind, nodeExists, kvGet, mpure, hsrc, hsome, htgt, hnew]
    constructor
    · intro st2 tr2 hphase
      rw [hsetup, mcatch_ok hphase]
    · intro e st2 tr2 hphase
      rw [hsetup, mcatch_err hphase, mbind_ok (mcatch_swallow _ st2 tr2)]
      rfl

/-- A JavaScript value as a visitor callback returns it. -/
inductive JSVal where
  | bool (b : Bool)
  | null
  | undef
  | num (n : Int)
  | str (s : String)
deriving DecidableEq

/-- JavaScript falsiness: `false`, `null`, `undefined`, `0`, `""` (`NaN`
needs no model here). -/
def falsy : JSVal → Bool
  | .bool false => true
  | .null => true
  | .undef => true
  | .num 0 => true
  | .str "" => true
  | _ => false

/-- The pruning test the source actually performs:
`shouldContinue === false`. -/
def isStrictFalse (v : JSVal) : Bool := v == .bool false

/-- `currentDepth > maxDepth`, where `none` is `Infinity` (the comparison is
then always false). -/
def depthGT (depth : Nat) (maxDepth : Option Nat) : Bool :=
  match maxDepth with
  | none => false
  | some m => decide (m < depth)

mutual

/-- `depthFirstTraverse`, returning the visited snapshots in visit order.
`fuel` bounds the recursion depth as in `copySubtree`. -/
def depthFirstTraverse : Nat → (NodeSnap → Nat → JSVal) → Option Nat → List String →
    Nat → M (List NodeSnap)
  | 0, _, _, _, _ => mthrow "depth-first: recursion limit"
  | fuel + 1, cb, maxDepth, path, depth =>
    if depthGT depth maxDepth then mpure [] else
    mbind (getNode path) fun node =>
      if isStrictFalse (cb node depth) then mpure [node]
      else
        mbind (dfsChildren fuel cb maxDepth path depth node.children) fun rest =>
          mpure (node :: rest)
termination_by fuel _ _ _ _ => (fuel, 0)

/-- The child loop of `depthFirstTraverse`. -/
def dfsChildren : Nat → (NodeSnap → Nat → JSVal) → Option Nat → List String → Nat →
    List String → M (List NodeSnap)
  | _, _, _, _, _, [] => mpure []
  | fuel, cb, maxDepth, path, depth, k :: ks =>
    mbind (depthFirstTraverse fuel cb maxDepth (path ++ [k]) (depth + 1)) fun vs1 =>
      mbind (dfsChildren fuel cb maxDepth path depth ks) fun vs2 =>
        mpure (vs1 ++ vs2)
termination_by fuel _ _ _ _ ks => (fuel, ks.length + 1)

end

/-- `breadthFirstTraverse`, over an explicit queue of (path, depth) pairs,
returning the visited snapshots in visit order. -/
def breadthFirstTraverse : Nat → (NodeSnap → Nat → JSVal) → Option Nat →
    List (List String × Nat) → M (List NodeSnap)
  | _, _, _, [] => mpure []
  | 0, _, _, _ :: _ => mthrow "breadth-first: iteration limit"
  | fuel + 1, cb, maxDepth, (path, depth) :: rest =>
    if depthGT depth maxDepth then breadthFirstTraverse fuel cb maxDepth rest else
    mbind (getNode path) fun node =>
      if isStrictFalse (cb node depth) then
        mbind (breadthFirstTraverse fuel cb maxDepth rest) fun vs => mpure (node :: vs)
      else
        mbind (breadthFirstTraverse fuel cb maxDepth
            (rest ++ node.children.map (fun k => (path ++ [k], depth + 1)))) fun vs =>
          mpure (node :: vs)
termination_by fuel _ _ q => (fuel, q.length)

/-- C3 (amended): pruning triggers exactly on the strict boolean `false`.
Depth-first: a visitor returning `false` at a node makes the traversal of
that node return just that node, recursing into no child.  Breadth-first: a
visitor returning `false` at the queue head visits it and continues with the
rest of the queue, enqueueing none of its children.  (Other falsy returns —
`null`, `undefined`, `0`, `""` — do not prune; see the counterexample.) -/
theorem traverse_prune_on_strict_false :
    (∀ (fuel : Nat) (cb : NodeSnap → Nat → JSVal) (maxDepth : Option Nat)
       (path : List String) (depth : Nat) (st : Store) (node : NodeSnap),
       getNode path st [] = (.ok node, st, []) →
       isStrictFalse (cb node depth) = true →
       depthGT depth maxDepth = false →
       depthFirstTraverse (fuel + 1) cb maxDepth path depth st [] = (.ok [node], st, [])) ∧
    (∀ (fuel : Nat) (cb : NodeSnap → Nat → JSVal) (maxDepth : Option Nat)
       (path : List String) (depth : Nat) (rest : List (List String × Nat))
       (st : Store) (tr : List KVOp) (node : NodeSnap),
       getNode path st tr = (.ok node, st, tr) →
       isStrictFalse (cb node depth) = true →
       depthGT depth maxDepth = false →
       breadthFirstTraverse (fuel + 1) cb maxDepth ((path, depth) :: rest) st tr =
         ((breadthFirstTraverse fuel cb maxDepth rest st tr).1.map (fun vs => node :: vs),
          (breadthFirstTraverse fuel cb maxDepth rest st tr).2.1,
          (breadthFirstTraverse fuel cb maxDepth rest st tr).2.2)) := by
  constructor
  · intro fuel cb maxDepth path depth st node hg hfalse hdep
    rw [depthFirstTraverse, if_neg (by simp [hdep]), mbind_ok hg, if_pos hfalse]
    rfl
  · intro fuel cb maxDepth path depth rest st tr node hg hfalse hdep
    rw [breadthFirstTraverse, if_neg (by simp [hdep]), mbind_ok hg, if_pos hfalse]
    rcases h : breadthFirstTraverse fuel cb maxDepth rest st tr with ⟨r, st2, tr2⟩
    cases r with
    | ok vs => rw [mbind_ok h]; rfl
    | error e => rw [mbind_err h]; rfl

/-- A concrete store: a root with child `a`, which has child `b`. -/
def demoStore : Store :=
  [((pathKey [], "value"), some (.str "r")),
   ((pathKey [], "children"), some (.arr [.str "a"])),
   ((pathKey ["a"], "value"), some (.str "va")),
   ((pathKey ["a"], "children"), some (.arr [.str "b"])),
   ((pathKey ["a"], "parent"), some (.arr [])),
   ((pathKey ["a", "b"], "value"), some (.str "vb")),
   ((pathKey ["a", "b"], "children"), some (.arr [])),
   ((pathKey ["a", "b"], "parent"), some (.arr [.str "a"]))]

/-- C3 counterexample: `null` is false-equivalent, yet a visitor returning
`null` at `["a"]` — a node with a child — does not prune: the child
`["a","b"]` is still visited, because the code tests `=== false`, not
falsiness. -/
theorem c3_counterexample :
    falsy JSVal.null = true ∧
      runM (depthFirstTraverse 3 (fun _ _ => JSVal.null) none ["a"] 0) demoStore =
        (.ok [⟨["a"], .str "va", ["b"], true⟩, ⟨["a", "b"], .str "vb", [], false⟩],
         demoStore, []) := by
  refine ⟨rfl, ?_⟩
  have hga : getNode ["a"] demoStore [] =
      (.ok ⟨["a"], .str "va", ["b"], true⟩, demoStore, []) := rfl
  have hgb : getNode (["a"] ++ ["b"]) demoStore [] =
      (.ok ⟨["a", "b"], .str "vb", [], false⟩, demoStore, []) := rfl
  have hsubB : dfsChildren 1 (fun _ _ => JSVal.null) none (["a"] ++ ["b"]) (0 + 1) []
      demoStore [] = (.ok [], demoStore, []) := by
    rw [dfsChildren]
    rfl
  have hdfsB : depthFirstTraverse 2 (fun _ _ => JSVal.null) none (["a"] ++ ["b"]) (0 + 1)
      demoStore [] = (.ok [⟨["a", "b"], .str "vb", [], false⟩], demoStore, []) := by
    rw [depthFirstTraverse, if_neg (by decide), mbind_ok hgb, if_neg (by decide),
      mbind_ok hsubB]
    rfl
  have hmidB : (mbind (depthFirstTraverse 2 (fun _ _ => JSVal.null) none
        (["a"] ++ ["b"]) (0 + 1)) fun vs1 =>
      mbind (dfsChildren 2 (fun _ _ => JSVal.null) none ["a"] 0 []) fun vs2 =>
        mpure (vs1 ++ vs2)) demoStore [] =
      (.ok [⟨["a", "b"], .str "vb", [], false⟩], demoStore, []) := by
    rw [mbind_ok hdfsB, dfsChildren]
    rfl
  rw [runM, depthFirstTraverse, if_neg (by decide), mbind_ok hga,
    if_neg (by decide), dfsChildren, mbind_ok hmidB]
  rfl

/-- C3 witness: both pruning conjuncts applied to a strict-`false` visitor
at `["a"]` in the demo store: only `["a"]` itself is visited. -/
theorem c3_witness :
    depthFirstTraverse 1 (fun _ _ => JSVal.bool false) none ["a"] 0 demoStore [] =
        (.ok [⟨["a"], .str "va", ["b"], true⟩], demoStore, []) ∧
      breadthFirstTraverse 1 (fun _ _ => JSVal.bool false) none [(["a"], 0)] demoStore [] =
        (.ok [⟨["a"], .str "va", ["b"], true⟩], demoStore, []) := by
  have hg : getNode ["a"] demoStore [] =
      (.ok ⟨["a"], .str "va", ["b"], true⟩, demoStore, []) := rfl
  constructor
  · exact traverse_prune_on_strict_false.1 0 (fun _ _ => JSVal.bool false) none ["a"] 0
      demoStore _ hg rfl rfl
  · have h := traverse_prune_on_strict_false.2 0 (fun _ _ => JSVal.bool false) none ["a"] 0
      [] demoStore [] _ hg rfl rfl
    rw [h]
    simp [breadthFirstTraverse, mpure, Except.map]

/-- C7 witness: moving `["a"]` onto the occupied destination `["a"]` is
rejected by the validation conjunct. -/
theorem c7_witness :
    runM (moveNode 2 2 ["a"] [] "a") demoStore =
      (.error ("Target path already exists: " ++ pathJoin ["a"]), demoStore, []) :=
  (moveNode_spec 2 2 demoStore ["a"] [] "a").2.2.2.1 (by simp) rfl rfl rfl

/-- C6 witness: deleting `["a"]` from the demo store deletes `["a","b"]`'s
records, then `["a"]`'s, then rewrites the root's children without `a`. -/
theorem c6_witness :
    ∃ st2, runM (deleteNode 3 ["a"]) demoStore = (.ok (), st2,
      [.del (storageKey ["a", "b"] "value"), .del (storageKey ["a", "b"] "children"),
       .del (storageKey ["a", "b"] "parent"),
       .del (storageKey ["a"] "value"), .del (storageKey ["a"] "children"),
       .del (storageKey ["a"] "parent"),
       .put (storageKey [] "children") (some (.arr []))]) := by
  obtain ⟨st2, h⟩ := (deleteNode_spec 3 demoStore ["a"]).2.2 (by simp) (by simp) rfl
  refine ⟨st2, ?_⟩
  rw [h]
  rfl

/-- C10 witness: the specification applied to a concrete two-record store
holding a childless node at `["a"]`. -/
theorem c10_witness :
    runM (getNode ["a"]) [((pathKey ["a"], "value"), some (.str "v")),
        ((pathKey ["a"], "children"), some (.arr []))] =
      (.ok ⟨["a"], .str "v", [], false⟩, [((pathKey ["a"], "value"), some (.str "v")),
        ((pathKey ["a"], "children"), some (.arr []))], []) := by
  have h := (getNode_spec [((pathKey ["a"], "value"), some (.str "v")),
    ((pathKey ["a"], "children"), some (.arr []))] ["a"]).2.2 (.str "v") (.arr [])
    rfl rfl
  simpa using h

end TreeKV
